import Mathlib

/-!
# Verification of the typed-context interface linter

This development embeds the core of `linter/interface_lint.go` from
Khan/typed-context: the capability-graph functions (`_explicitInterfaces`,
`_leafInterfaces`, `_embedsExplicitlyContaining`), the usage tracker
(`track`, `_markArgsUsed`, `_markCastUsed`, `_markReceiverUsed`,
`_markCachedFunctionUsed`, `_markKeyParamsFunctionUsed`,
`_markCompositeLitValuesUsed`, `markUses`), the interface-method unifier
(`identifyInterfaceMethods`) and the problem evaluator
(`_interfaceWasUsed`, `_interfaceWasRequested`, `_methodWasRequested`,
`problems`).

Modelling conventions:
* `go/types` type nodes are modelled by the inductive `GoType`.  Pointer
  identity of `*types.Named` nodes (one canonical node per declaration)
  is modelled by structural equality under the convention that distinct
  declarations carry distinct `id` fields.
* Method identities (`types.Func.Id()`, which folds together name,
  package qualification for unexported names, and — for the purposes of
  `types.Implements` — the signature) are modelled as natural numbers:
  two methods get the same number iff Go would consider them the same
  interface method.
* Packages are `Option Nat` (`types.Object.Pkg()` may be nil).
* The base context type `context.Context` is the named type with id 0 in
  package 0; its interface methods are collapsed into method id 0.
-/

set_option maxHeartbeats 1000000

namespace TypedContext

/-- Model of a `go/types` type node, restricted to what the linter
inspects: named types (with owning package, exportedness and underlying
type), interface types (explicit method ids and embedded types),
function signatures (parameter objects with their types, plus the
variadic flag), struct types (field types in declaration order) and
concrete non-interface method-set carriers. -/
inductive GoType : Type where
  | named (id : Nat) (pkg : Option Nat) (exported : Bool) (under : GoType)
  | iface (methods : List Nat) (embeds : List GoType)
  | sig (params : List (Nat × GoType)) (variadic : Bool)
  | strct (fields : List GoType)
  | concrete (methods : List Nat)

namespace GoType

mutual

/-- Structural (boolean) equality on `GoType`; under the unique-id
convention this coincides with `go/types` node identity. -/
def beq : GoType → GoType → Bool
  | .named i p e u, .named i' p' e' u' => i == i' && p == p' && e == e' && beq u u'
  | .iface ms es, .iface ms' es' => ms == ms' && beqList es es'
  | .sig ps v, .sig ps' v' => beqParams ps ps' && v == v'
  | .strct fs, .strct fs' => beqList fs fs'
  | .concrete ms, .concrete ms' => ms == ms'
  | _, _ => false

def beqList : List GoType → List GoType → Bool
  | [], [] => true
  | t :: ts, t' :: ts' => beq t t' && beqList ts ts'
  | _, _ => false

def beqParams : List (Nat × GoType) → List (Nat × GoType) → Bool
  | [], [] => true
  | (n, t) :: ts, (n', t') :: ts' => n == n' && beq t t' && beqParams ts ts'
  | _, _ => false

end

mutual

theorem beq_eq : ∀ (a b : GoType), beq a b = true → a = b
  | .named i p e u, .named i' p' e' u', h => by
      simp only [beq, Bool.and_eq_true, beq_iff_eq] at h
      obtain ⟨⟨⟨h1, h2⟩, h3⟩, h4⟩ := h
      rw [h1, h2, h3, beq_eq u u' h4]
  | .iface ms es, .iface ms' es', h => by
      simp only [beq, Bool.and_eq_true, beq_iff_eq] at h
      rw [h.1, beqList_eq es es' h.2]
  | .sig ps v, .sig ps' v', h => by
      simp only [beq, Bool.and_eq_true, beq_iff_eq] at h
      rw [h.2, beqParams_eq ps ps' h.1]
  | .strct fs, .strct fs', h => by
      simp only [beq] at h
      rw [beqList_eq fs fs' h]
  | .concrete ms, .concrete ms', h => by
      simp only [beq, beq_iff_eq] at h
      rw [h]

theorem beqList_eq : ∀ (a b : List GoType), beqList a b = true → a = b
  | [], [], _ => rfl
  | t :: ts, t' :: ts', h => by
      simp only [beqList, Bool.and_eq_true] at h
      rw [beq_eq t t' h.1, beqList_eq ts ts' h.2]

theorem beqParams_eq : ∀ (a b : List (Nat × GoType)), beqParams a b = true → a = b
  | [], [], _ => rfl
  | (n, t) :: ts, (n', t') :: ts', h => by
      simp only [beqParams, Bool.and_eq_true, beq_iff_eq] at h
      rw [h.1.1, beq_eq t t' h.1.2, beqParams_eq ts ts' h.2]

end

mutual

theorem beq_refl : ∀ (a : GoType), beq a a = true
  | .named i p e u => by simp [beq, beq_refl u]
  | .iface ms es => by simp [beq, beqList_refl es]
  | .sig ps v => by simp [beq, beqParams_refl ps]
  | .strct fs => by simp [beq, beqList_refl fs]
  | .concrete ms => by simp [beq]

theorem beqList_refl : ∀ (a : List GoType), beqList a a = true
  | [] => rfl
  | t :: ts => by simp [beqList, beq_refl t, beqList_refl ts]

theorem beqParams_refl : ∀ (a : List (Nat × GoType)), beqParams a a = true
  | [] => rfl
  | (n, t) :: ts => by simp [beqParams, beq_refl t, beqParams_refl ts]

end

instance : DecidableEq GoType := fun a b =>
  if h : beq a b = true then .isTrue (beq_eq a b h)
  else .isFalse fun he => h (he ▸ beq_refl a)

/-- `types.Type.Underlying()`: chase named-type indirections. -/
def underlying : GoType → GoType
  | .named _ _ _ u => underlying u
  | t => t

theorem sizeOf_underlying_le : ∀ (t : GoType), sizeOf (underlying t) ≤ sizeOf t
  | .named i p e u => by
      have ih := sizeOf_underlying_le u
      simp only [underlying]
      have h : sizeOf u < sizeOf (GoType.named i p e u) := by
        simp only [GoType.named.sizeOf_spec]; omega
      omega
  | .iface _ _ => by simp [underlying]
  | .sig _ _ => by simp [underlying]
  | .strct _ => by simp [underlying]
  | .concrete _ => by simp [underlying]

theorem sizeOf_lt_of_mem_embeds {t : GoType} {ms : List Nat} {es : List GoType}
    (h : underlying t = .iface ms es) {e : GoType} (he : e ∈ es) :
    sizeOf e < sizeOf t := by
  have h1 : sizeOf e < sizeOf es := List.sizeOf_lt_of_mem he
  have h2 : sizeOf es < sizeOf (GoType.iface ms es) := by
    simp only [GoType.iface.sizeOf_spec]; omega
  have h3 := sizeOf_underlying_le t
  rw [h] at h3
  omega

end GoType

open GoType

/-- `lintutil.TypeIs(typ, "context", "Context")`: the type is the named
base-context declaration. -/
def typeIsCtx : GoType → Bool
  | .named id pkg _ _ => id == 0 && pkg == some 0
  | _ => false

/-- `isContextType`: the type is `context.Context` itself, or an
interface one of whose embedded types is (recursively) context-like. -/
def isContextType (t : GoType) : Bool :=
  typeIsCtx t ||
    match h : underlying t with
    | .iface _ es => es.attach.any fun e => isContextType e.1
    | _ => false
termination_by sizeOf t
decreasing_by exact sizeOf_lt_of_mem_embeds h e.2

/-- The method set of a type as `types.Implements` sees it: for an
interface, the explicit methods plus (recursively) the method sets of
its embedded types; for a concrete type, its declared (pointer) method
set. -/
def methodSet (t : GoType) : List Nat :=
  match h : underlying t with
  | .iface ms es => ms ++ es.attach.flatMap fun e => methodSet e.1
  | .concrete ms => ms
  | _ => []
termination_by sizeOf t
decreasing_by exact sizeOf_lt_of_mem_embeds h e.2

/-- `types.Implements(v, iface)` for `iface` the underlying interface of
`target`: every method of `target` is a method of `v`. -/
def implementsT (v target : GoType) : Bool :=
  (methodSet target).all fun m => (methodSet v).contains m

/-- `_hasExplicitMethod(iface, name)`: the (underlying) interface
declares the method explicitly, not via an embedded interface. -/
def hasExplicitMethodB (t : GoType) (m : Nat) : Bool :=
  match underlying t with
  | .iface ms _ => ms.contains m
  | _ => false

/-- `_explicitInterfaces(typ, currentPackage)`: the typed-context
interfaces explicitly included in the given type.  Named interfaces
from other packages are included without recursion; named exported
interfaces of the current package are included and recursed into;
unnamed or unexported interfaces only contribute their embeds; and a
type whose underlying type is not an interface contributes nothing. -/
def explicitInterfaces (t : GoType) (currentPackage : Option Nat) : List GoType :=
  match h : underlying t with
  | .iface _ es =>
      match t with
      | .named _ pkg ex _ =>
          if pkg ≠ currentPackage then [t]
          else (if ex then [t] else []) ++
            es.attach.flatMap fun e => explicitInterfaces e.1 currentPackage
      | _ => es.attach.flatMap fun e => explicitInterfaces e.1 currentPackage
  | _ => []
termination_by sizeOf t
decreasing_by
  · exact sizeOf_lt_of_mem_embeds h e.2
  · exact sizeOf_lt_of_mem_embeds h e.2

/-- `_leafInterfaces(typ)`: all interfaces embedded by this interface,
including itself, stopping at interfaces with explicit methods. -/
def leafInterfaces (t : GoType) : List GoType :=
  match h : underlying t with
  | .iface ms es =>
      if ms.length > 0 then [t]
      else es.attach.flatMap fun e => leafInterfaces e.1
  | _ => []
termination_by sizeOf t
decreasing_by exact sizeOf_lt_of_mem_embeds h e.2

/-- `_embedsExplicitlyContaining(typ, methodName)`: the interfaces
recursively embedded in `t` (including `t` itself) that explicitly
declare the method.  The source accumulates these in a set and returns
them in nondeterministic order; the embedding keeps a list, and all
downstream reasoning is membership-based. -/
def embedsExplicitlyContaining (t : GoType) (m : Nat) : List GoType :=
  match h : underlying t with
  | .iface ms es =>
      (if ms.contains m then [t] else []) ++
        es.attach.flatMap fun e => embedsExplicitlyContaining e.1 m
  | _ => []
termination_by sizeOf t
decreasing_by exact sizeOf_lt_of_mem_embeds h e.2

/-- Every member of `explicitInterfaces t P` is either `t` itself or a
strictly smaller type (it comes from some embedded interface). -/
theorem mem_explicitInterfaces_size (t : GoType) (P : Option Nat) (e : GoType)
    (hmem : e ∈ explicitInterfaces t P) : e = t ∨ sizeOf e < sizeOf t := by
  rw [explicitInterfaces] at hmem
  split at hmem
  case h_2 => simp at hmem
  case h_1 ms es h =>
    have hsub : e ∈ es.attach.flatMap (fun x => explicitInterfaces x.1 P) →
        sizeOf e < sizeOf t := by
      intro hs
      rw [List.mem_flatMap] at hs
      obtain ⟨⟨em, hemmem⟩, _, hein⟩ := hs
      have hlt : sizeOf em < sizeOf t := sizeOf_lt_of_mem_embeds h hemmem
      rcases mem_explicitInterfaces_size em P e hein with he | he
      · rw [he]; exact hlt
      · omega
    split at hmem
    case h_2 =>
      right; exact hsub hmem
    case h_1 i pkg ex u =>
      split at hmem
      · simp at hmem; left; exact hmem
      · rw [List.mem_append] at hmem
        rcases hmem with hmem | hmem
        · split at hmem <;> simp at hmem; left; exact hmem
        · right; exact hsub hmem
termination_by sizeOf t
decreasing_by exact hlt

/-- `types.Object`: a declared identifier, with its object identity
(`id`), source name, static type and owning package. -/
structure Obj : Type where
  id : Nat
  name : String
  typ : GoType
  pkg : Option Nat
  deriving DecidableEq

/-- `_objInfo`: what the tracker knows about one tracked variable.  The
source keys `interfaceUses` by type node and `methodUses` by method
name in Go maps (sets in nondeterministic order); the embedding keeps
lists, and all downstream reasoning is membership-based. -/
structure ObjInfo : Type where
  obj : Obj
  interfaceUses : List GoType
  methodUses : List Nat
  isCached : Bool
  deriving DecidableEq

/-- `_interfaceWasUsed`: the given leaf interface of the variable's
type was in fact used, either by using the variable as an interface
that implements it, or by calling one of its explicit methods. -/
def interfaceWasUsed (info : ObjInfo) (typ : GoType) : Bool :=
  match underlying typ with
  | .iface _ _ =>
      info.interfaceUses.any (fun used => implementsT used typ) ||
        info.methodUses.any (fun m => hasExplicitMethodB typ m)
  | _ => true

/-- The cast-exemption test of `_interfaceWasRequested`: the type
underlies to an interface that the variable's static type does not
implement, so it can only have been reached via a cast. -/
def castExemptB (info : ObjInfo) (typ : GoType) : Bool :=
  match underlying typ with
  | .iface _ _ => !implementsT info.obj.typ typ
  | _ => false

/-- The give-up test of `_interfaceWasRequested`: the type is an
inline (unnamed) interface with at least one explicit method. -/
def inlineWithMethodsB (typ : GoType) : Bool :=
  match typ with
  | .iface ms _ => ms.length > 0
  | _ => false

/-- `_interfaceWasRequested`: the given interface was explicitly
requested in the type of the variable.  A cast to an interface the
variable's type does not implement is exempt; an inline interface with
explicit methods is given up on (treated as requested); otherwise the
interface must appear in the explicit-composition set of the
variable's type, or — recursive fallback — be a named interface all of
whose constituent interfaces (computed against its home package,
excluding itself) were requested, provided there is at least one such
constituent. -/
def interfaceWasRequested (info : ObjInfo) (typ : GoType) : Bool :=
  if castExemptB info typ then
    true
  else if inlineWithMethodsB typ then
    true
  else if (explicitInterfaces info.obj.typ info.obj.pkg).contains typ then
    true
  else
    match hty : typ with
    | .named _ pkg _ _ =>
        let typMentions := explicitInterfaces typ pkg
        if typMentions.length > 1 ∨
            (typMentions.length > 0 ∧ typMentions.head? ≠ some typ) then
          typMentions.attach.all fun mention =>
            if hne : mention.1 = typ then true
            else interfaceWasRequested info mention.1
        else false
    | _ => false
termination_by sizeOf typ
decreasing_by
  rcases mem_explicitInterfaces_size _ _ _ mention.2 with he | he
  · exact absurd he hne
  · exact hty ▸ he

/-- `_methodWasRequested`: some interface explicitly containing the
method was requested. -/
def methodWasRequested (info : ObjInfo) (methodName : Nat) : Bool :=
  (embedsExplicitlyContaining info.obj.typ methodName).any fun embed =>
    interfaceWasRequested info embed

/-- `problems`: the evaluator's verdict for one tracked variable:
whether the variable is entirely unused, the leaf interfaces requested
but not used, and the interfaces used but not explicitly requested. -/
def problems (info : ObjInfo) : Bool × List GoType × List GoType :=
  let allLeaves := leafInterfaces info.obj.typ
  let unused := allLeaves.filter fun embed => ¬ interfaceWasUsed info embed
  let unrequestedFromUses := info.interfaceUses.flatMap fun usedInterface =>
    (explicitInterfaces usedInterface info.obj.pkg).filter fun usedEmbed =>
      ¬ interfaceWasRequested info usedEmbed
  let unrequestedFromMethods :=
    (info.methodUses.filter fun m => ¬ methodWasRequested info m).flatMap
      fun m => embedsExplicitlyContaining info.obj.typ m
  (unused.length == allLeaves.length, unused,
    unrequestedFromUses ++ unrequestedFromMethods)

/-! ## The usage-tracker phase -/

/-- The base context type `context.Context` (name id 0, package 0); its
method set is collapsed into the single method id 0. -/
def baseCtx : GoType := .named 0 (some 0) true (.iface [0] [])

/-- `tracker.trackedIdents`: object id → usage record.  The source maps
`types.Object` pointers to `*_objInfo` pointers; during the marking
phase no record is shared, so a value map keyed by object id is
faithful (record sharing set up by the unifier is modelled separately
below, where only record identity matters). -/
def MarkMap : Type := List (Nat × ObjInfo)

def lookupInfo (m : MarkMap) (k : Nat) : Option ObjInfo :=
  match m with
  | [] => none
  | e :: rest => if e.1 = k then some e.2 else lookupInfo rest k

def mapInfo (m : MarkMap) (k : Nat) (f : ObjInfo → ObjInfo) : MarkMap :=
  match m with
  | [] => []
  | e :: rest => if e.1 = k then (e.1, f e.2) :: rest else e :: mapInfo rest k f

/-- `info.interfaceUses[typ] = true` guarded by `info != nil`. -/
def addInterfaceUse (m : MarkMap) (k : Nat) (t : GoType) : MarkMap :=
  mapInfo m k fun info => { info with interfaceUses := t :: info.interfaceUses }

/-- `info.methodUses[name] = true` guarded by `info != nil`. -/
def addMethodUse (m : MarkMap) (k : Nat) (sel : Nat) : MarkMap :=
  mapInfo m k fun info => { info with methodUses := sel :: info.methodUses }

/-- `info.isCached = true` guarded by `info != nil`. -/
def setCached (m : MarkMap) (k : Nat) : MarkMap :=
  mapInfo m k fun info => { info with isCached := true }

/-- `delete(tracker.trackedIdents, ctxArg)`. -/
def eraseKey (m : MarkMap) (k : Nat) : MarkMap :=
  m.filter fun e => e.1 ≠ k

/-- `track`: register an identifier for usage tracking.  `obj?` is
`typesInfo.Defs[ident]` (`none` in edge cases like struct fields). -/
def track (m : MarkMap) (obj? : Option Obj) : MarkMap :=
  match obj? with
  | none => m
  | some obj =>
      if obj.name = "_" ∨ isContextType obj.typ = false then m
      else
        let ifaces := leafInterfaces obj.typ
        if ifaces.length = 0 then m
        else if (match ifaces with
            | [t] => typeIsCtx t
            | _ => false) = true then m
        else (obj.id, ⟨obj, [], [], false⟩) :: m

/-- The projection of an `*ast.CallExpr` through the type information:
the static type of the callee, `lintutil.NameOf` of the callee's
object, the object ids of bare-identifier arguments (`none` for
non-identifier arguments), the static type of the first argument, and
the receiver object id and selected method for a `<ident>.<method>`
callee. -/
structure Call : Type where
  funType : GoType
  funName : String
  args : List (Option Nat)
  arg0Type : Option GoType
  recv : Option (Nat × Nat)

/-- `getParamAt`: the parameter receiving the i-th argument, resolving
variadic trailing parameters; `none` models the `make()` bug case. -/
def getParamAt (params : List (Nat × GoType)) (variadic : Bool) (i : Nat) :
    Option (Nat × GoType) :=
  if i < params.length then params[i]?
  else if variadic then params[params.length - 1]?
  else none

/-- `_markArgsUsed`: mark each bare-identifier argument as used at its
parameter's declared type.  Returns `none` when the callee's type does
not underlie to a function signature (the `panic("Bad Signature?")`
abort branch). -/
def markArgsUsed (m : MarkMap) (c : Call) : Option MarkMap :=
  match underlying c.funType with
  | .sig params variadic =>
      some (c.args.enum.foldl
        (fun m' ia =>
          match ia.2 with
          | none => m'
          | some argObjId =>
              match getParamAt params variadic ia.1 with
              | none => m'
              | some param => addInterfaceUse m' argObjId param.2)
        m)
  | _ => none

/-- `_markCastUsed`: `x.(T)` marks `T` as used on `x`'s record, when
the operand is a bare identifier. -/
def markCastUsed (m : MarkMap) (x : Option Nat) (assertedType : GoType) : MarkMap :=
  match x with
  | some objId => addInterfaceUse m objId assertedType
  | none => m

/-- `_markReceiverUsed`: `x.Method(...)` marks the method name as used
on `x`'s record. -/
def markReceiverUsed (m : MarkMap) (c : Call) : MarkMap :=
  match c.recv with
  | some rs => addMethodUse m rs.1 rs.2
  | none => m

def cacheFuncName : String := "github.com/Khan/webapp/pkg/lib/cache.Cache"

def keyParamsFuncName : String := "github.com/Khan/webapp/pkg/lib/cache.KeyParamsFxn"

/-- `_markCachedFunctionUsed`: a call to the recognized memoization
entry point marks the first parameter of its function argument as
cached. -/
def markCachedFunctionUsed (m : MarkMap) (c : Call) : MarkMap :=
  if c.funName ≠ cacheFuncName ∨ c.args.isEmpty then m
  else
    match c.arg0Type with
    | some (.sig (param :: _) _) => setCached m param.1
    | _ => m

/-- `_markKeyParamsFunctionUsed`: a call to the recognized key-params
entry point removes the first parameter of its function argument from
tracking. -/
def markKeyParamsFunctionUsed (m : MarkMap) (c : Call) : MarkMap :=
  if c.funName ≠ keyParamsFuncName ∨ c.args.isEmpty then m
  else
    match c.arg0Type with
    | some (.sig (param :: _) _) => eraseKey m param.1
    | _ => m

/-- One element of a composite literal: keyed (the key's static type
determines the struct-field type) or positional. -/
inductive CompElt : Type where
  | keyed (keyType : GoType) (val : Option Nat)
  | unkeyed (val : Option Nat)

/-- `_markSingleStructValueUsed`. -/
def markSingleStructValueUsed (m : MarkMap) (t : GoType) (val : Option Nat) : MarkMap :=
  match val with
  | some objId => addInterfaceUse m objId t
  | none => m

/-- The per-element body of `_markCompositeLitValuesUsed`: a keyed
element is marked at its key's type, a positional element at the
corresponding struct field's type; a positional element beyond the
field list is the `Struct.Field(i)` panic (impossible for a compiled
program), modelled as `none`. -/
def markCompLitElt (fields : List GoType) (m' : MarkMap) (ie : Nat × CompElt) :
    Option MarkMap :=
  match ie.2 with
  | .keyed keyType val => some (markSingleStructValueUsed m' keyType val)
  | .unkeyed val =>
      match fields[ie.1]? with
      | some fty => some (markSingleStructValueUsed m' fty val)
      | none => none

/-- `_markCompositeLitValuesUsed`: mark identifiers assigned into
struct-literal fields. -/
def markCompositeLitValuesUsed (m : MarkMap) (typ? : Option GoType)
    (elts : List CompElt) : Option MarkMap :=
  if elts.isEmpty then some m
  else
    match typ? with
    | none => some m
    | some typ =>
        match underlying typ with
        | .strct fields => elts.enum.foldlM (markCompLitElt fields) m
        | _ => some m

/-- One AST node as seen by `markUses`'s `ast.Inspect` callback.  A
type assertion with `assertedType = none` models the `x.(type)` head
of a type-switch. -/
inductive Node : Type where
  | typeAssert (x : Option Nat) (assertedType : Option GoType)
  | call (c : Call)
  | compositeLit (typ : Option GoType) (elts : List CompElt)

/-- Processing of a single inspected node, in the source's order:
casts; then for calls the argument, receiver, cached-function and
key-params marks; then composite literals. -/
def markUsesNode (m : MarkMap) : Node → Option MarkMap
  | .typeAssert x assertedType? =>
      match assertedType? with
      | some assertedType => some (markCastUsed m x assertedType)
      | none => some m
  | .call c =>
      (markArgsUsed m c).map fun m' =>
        markKeyParamsFunctionUsed
          (markCachedFunctionUsed (markReceiverUsed m' c) c) c
  | .compositeLit typ? elts => markCompositeLitValuesUsed m typ? elts

/-- `markUses`: process the inspected nodes in order; the result is
`none` iff some node hit an abort branch. -/
def markUses (m : MarkMap) (nodes : List Node) : Option MarkMap :=
  nodes.foldlM markUsesNode m

/-- A node as it can occur in a well-typed, successfully-compiled
program: every call's callee type underlies to a function signature,
and every positional composite-literal element has a corresponding
struct field. -/
def wellTypedNode : Node → Bool
  | .call c =>
      match underlying c.funType with
      | .sig _ _ => true
      | _ => false
  | .compositeLit typ? elts =>
      match typ? with
      | some typ =>
          match underlying typ with
          | .strct fields =>
              elts.enum.all fun ie =>
                match ie.2 with
                | .unkeyed _ => decide (ie.1 < fields.length)
                | .keyed _ _ => true
          | _ => true
      | none => true
  | .typeAssert _ _ => true

/-! ## The interface-method unifier

`identifyInterfaceMethods` makes implementations of one interface
method share a single usage record.  In the source the sharing is
pointer aliasing of `*_objInfo` values inside `trackedIdents`; here the
map carries record identities (numbers standing for the `*_objInfo`
pointers), which is all the sharing argument depends on. -/

/-- One receiver-method declaration: the method id (`recvObj.Id()`) and
the object id of its first named parameter (`none` when the method has
no named parameters). -/
structure RecvDef : Type where
  methodId : Nat
  param0 : Option Nat
  deriving DecidableEq

/-- One receiver type, as produced by `lintutil.ReceiversByType`: the
method set of its pointer form (what `types.Implements(NewPointer(recvTyp),
iface)` consults) and its method declarations. -/
structure Recv : Type where
  methods : List Nat
  defs : List RecvDef
  deriving DecidableEq

/-- `trackedIdents` during unification: object id → record identity. -/
def TMap : Type := List (Nat × Nat)

def alookup (m : TMap) (k : Nat) : Option Nat :=
  match m with
  | [] => none
  | e :: rest => if e.1 = k then some e.2 else alookup rest k

def aset (m : TMap) (k v : Nat) : TMap := (k, v) :: m

/-- `mapsByMethod`: interface-method id → canonical record (if seeded). -/
def MBM : Type := List (Nat × Option Nat)

def blookup (m : MBM) (k : Nat) : Option (Option Nat) :=
  match m with
  | [] => none
  | e :: rest => if e.1 = k then some e.2 else blookup rest k

def bset (m : MBM) (k : Nat) (v : Option Nat) : MBM := (k, v) :: m

/-- `mapsByMethod[iface.Method(i).Id()] = nil` for every method. -/
def initMbm (ms : List Nat) : MBM := ms.map fun m => (m, none)

/-- The body of the inner receiver loop for one method declaration:
skip if the method is not a method of the interface, if the parameter
is missing, or if it is not tracked; otherwise seed the canonical
record from the first implementation found, and make later ones adopt
it. -/
def unifyStep (st : MBM × TMap) (d : RecvDef) : MBM × TMap :=
  match blookup st.1 d.methodId with
  | none => st
  | some canon =>
      match d.param0 with
      | none => st
      | some p =>
          match alookup st.2 p with
          | none => st
          | some r =>
              match canon with
              | none => (bset st.1 d.methodId (some r), st.2)
              | some c => (st.1, aset st.2 p c)

/-- The receiver-method declarations visited for one interface, in
visit order: the declarations of every receiver type whose pointer
form implements the interface. -/
def eligibleDefs (ifaceMethods : List Nat) (recvs : List Recv) : List RecvDef :=
  (recvs.filter fun r => ifaceMethods.all fun m => r.methods.contains m).flatMap
    fun r => r.defs

/-- Processing of one (non-empty) named interface. -/
def processIface (ifaceMethods : List Nat) (recvs : List Recv) (tm : TMap) : TMap :=
  ((eligibleDefs ifaceMethods recvs).foldl unifyStep (initMbm ifaceMethods, tm)).2

/-- `identifyInterfaceMethods`: process every named interface declared
in the package (in the nondeterministic order of `typesInfo.Defs`),
skipping empty interfaces. -/
def identifyInterfaceMethods (ifaces : List (List Nat)) (recvs : List Recv)
    (tm : TMap) : TMap :=
  ifaces.foldl (fun tm' ms => if ms.isEmpty then tm' else processIface ms recvs tm') tm

/-- A declaration qualifies for interface-method `mId` w.r.t. the
record map `tm0`: it declares that method and its first parameter is a
tracked variable. -/
def qualifies (tm0 : TMap) (mId : Nat) (d : RecvDef) : Bool :=
  d.methodId == mId &&
    match d.param0 with
    | some p => (alookup tm0 p).isSome
    | none => false

/-- The first parameters named by a list of declarations. -/
def paramsOf (l : List RecvDef) : List Nat := l.filterMap fun d => d.param0

/-! ## Concrete scenario definitions used by the claim theorems -/

/-- Leaf capability A: a foreign named interface with one method `a`,
embedding the base context (so variables declaring it are context-like). -/
def capA (a : Nat) : GoType := .named 10 (some 1) true (.iface [a] [baseCtx])

/-- Leaf capability B: a foreign named interface with one method `b`. -/
def capB (b : Nat) : GoType := .named 11 (some 1) true (.iface [b] [])

/-- Leaf capability C: a foreign named interface with one method `c`. -/
def capC (c : Nat) : GoType := .named 12 (some 1) true (.iface [c] [])

/-- A declared type with capability set {A, B} (analysed from package 2). -/
def declD (a b : Nat) : GoType := .iface [] [capA a, capB b]

/-- A cast target with capability set {B, C}. -/
def castU (b c : Nat) : GoType := .iface [] [capB b, capC c]

/-- Foreign exported part J (method 8). -/
def partJ : GoType := .named 30 (some 1) true (.iface [8] [])

/-- Foreign exported part K (method 9). -/
def partK : GoType := .named 31 (some 1) true (.iface [9] [])

/-- Foreign exported interface I composing exactly {J, K}. -/
def wholeI : GoType := .named 32 (some 1) true (.iface [] [partJ, partK])

/-- A variable (package 2) declaring {base context, J, K} directly,
used as the whole interface I. -/
def infoJK : ObjInfo :=
  ⟨⟨8, "ctx", .iface [] [baseCtx, partJ, partK], some 2⟩, [wholeI], [], false⟩

/-- Foreign exported interface J (method 5). -/
def foreignJ : GoType := .named 20 (some 1) true (.iface [5] [])

/-- An unnamed (inline) interface with explicit method 6, embedding the
foreign interface J. -/
def inlineU : GoType := .iface [6] [foreignJ]

/-- A tracked variable (package 2) whose declared type has methods 5
and 6 and embeds the base context, recorded as used as `inlineU`. -/
def infoInline : ObjInfo := ⟨⟨7, "ctx", .iface [5, 6] [baseCtx], some 2⟩, [inlineU], [], false⟩

/-- A foreign capability interface (method 7). -/
def capE : GoType := .named 13 (some 1) true (.iface [7] [])

/-- The failing input for C2: a tracked context variable whose record
was marked cached and carries no interface or method uses. -/
def cachedIdleInfo : ObjInfo :=
  ⟨⟨6, "ctx", .iface [] [baseCtx, capE], some 2⟩, [], [], true⟩

/-- The `cache.Cache(f)` call whose function argument has
`cachedIdleInfo.obj` as first parameter. -/
def cacheCall : Call :=
  ⟨.sig [] false, cacheFuncName, [none],
    some (.sig [(6, GoType.iface [] [baseCtx, capE])] false), none⟩

/-- Receiver type T: pointer method set {1, 2}, declaring method 1
with tracked first parameter 10 and method 2 with parameter 11. -/
def recvT : Recv := ⟨[1, 2], [⟨1, some 10⟩, ⟨2, some 11⟩]⟩

/-- Receiver type V: pointer method set {1, 3}, declaring method 1
with tracked first parameter 30. -/
def recvV : Recv := ⟨[1, 3], [⟨1, some 30⟩]⟩

/-- Receiver type U: pointer method set {1, 2, 3}, declaring method 1
with tracked first parameter 20. -/
def recvU : Recv := ⟨[1, 2, 3], [⟨1, some 20⟩]⟩

def recvsCE : List Recv := [recvT, recvV, recvU]

def tmCE : TMap := [(10, 100), (11, 101), (30, 300), (20, 200)]

/-! ## Helper lemmas and claim theorems -/


theorem interfaceWasRequested_unfold (info : ObjInfo) (typ : GoType) :
    interfaceWasRequested info typ =
      (if castExemptB info typ then true
      else if inlineWithMethodsB typ then true
      else if (explicitInterfaces info.obj.typ info.obj.pkg).contains typ then true
      else
        match typ with
        | .named _ pkg _ _ =>
            let typMentions := explicitInterfaces typ pkg
            if typMentions.length > 1 ∨
                (typMentions.length > 0 ∧ typMentions.head? ≠ some typ) then
              typMentions.attach.all fun mention =>
                if _hne : mention.1 = typ then true
                else interfaceWasRequested info mention.1
            else false
        | _ => false) := by
  cases typ <;> rw [interfaceWasRequested] <;> intro i p e u h <;> cases h


theorem attach_flatMap {α β : Type} (l : List α) (f : α → List β) :
    l.attach.flatMap (fun x => f x.1) = l.flatMap f := by
  conv_rhs => rw [← List.attach_map_subtype_val l]
  rw [List.flatMap_map]

theorem explicitInterfaces_not_iface (t : GoType) (P : Option Nat)
    (h : ∀ ms es, underlying t ≠ .iface ms es) : explicitInterfaces t P = [] := by
  rw [explicitInterfaces]
  split
  · exact absurd (by assumption) (h _ _)
  · rfl

theorem explicitInterfaces_named (i : Nat) (pkg : Option Nat) (ex : Bool) (u : GoType)
    (P : Option Nat) (ms : List Nat) (es : List GoType)
    (hu : underlying u = .iface ms es) :
    explicitInterfaces (.named i pkg ex u) P =
      if pkg ≠ P then [GoType.named i pkg ex u]
      else (if ex = true then [GoType.named i pkg ex u] else []) ++
        es.flatMap (fun e => explicitInterfaces e P) := by
  have hu2 : underlying (GoType.named i pkg ex u) = .iface ms es := hu
  rw [explicitInterfaces]
  split
  case h_2 hni => exact absurd hu2 (by intro hh; exact hni ms es hh)
  case h_1 ms' es' heq =>
    rw [hu2] at heq
    injection heq with h1 h2
    subst h1
    subst h2
    simp [attach_flatMap]

theorem explicitInterfaces_unnamed (ms : List Nat) (es : List GoType) (P : Option Nat) :
    explicitInterfaces (.iface ms es) P = es.flatMap fun e => explicitInterfaces e P := by
  rw [explicitInterfaces]
  split
  case h_2 hni => exact absurd (hni ms es rfl) (fun h => h)
  case h_1 ms' es' heq =>
    simp only [underlying] at heq
    injection heq with h1 h2
    subst h1
    subst h2
    simp [attach_flatMap]


theorem attach_any {α : Type} (l : List α) (p : α → Bool) :
    l.attach.any (fun x => p x.1) = l.any p := by
  rw [Bool.eq_iff_iff]
  simp only [List.any_eq_true, List.mem_attach, true_and, Subtype.exists]
  constructor
  · rintro ⟨x, hx, hpx⟩; exact ⟨x, hx, hpx⟩
  · rintro ⟨x, hx, hpx⟩; exact ⟨x, hx, hpx⟩

theorem leafInterfaces_iface (t : GoType) (ms : List Nat) (es : List GoType)
    (hu : underlying t = .iface ms es) :
    leafInterfaces t = if ms.length > 0 then [t] else es.flatMap leafInterfaces := by
  rw [leafInterfaces]
  split
  case h_2 hni => exact absurd (hni ms es hu) (fun h => h)
  case h_1 ms' es' heq =>
    rw [hu] at heq
    injection heq with h1 h2
    subst h1
    subst h2
    simp [attach_flatMap]

theorem methodSet_iface (t : GoType) (ms : List Nat) (es : List GoType)
    (hu : underlying t = .iface ms es) :
    methodSet t = ms ++ es.flatMap methodSet := by
  rw [methodSet]
  split
  case h_3 hni1 hni2 => exact (hni1 ms es hu).elim
  case h_2 ms' heq => rw [hu] at heq; cases heq
  case h_1 ms' es' heq =>
    rw [hu] at heq
    injection heq with h1 h2
    subst h1
    subst h2
    simp [attach_flatMap]

theorem embedsExplicitlyContaining_iface (t : GoType) (ms : List Nat) (es : List GoType)
    (m : Nat) (hu : underlying t = .iface ms es) :
    embedsExplicitlyContaining t m =
      (if ms.contains m then [t] else []) ++
        es.flatMap fun e => embedsExplicitlyContaining e m := by
  rw [embedsExplicitlyContaining]
  split
  case h_2 hni => exact absurd (hni ms es hu) (fun h => h)
  case h_1 ms' es' heq =>
    rw [hu] at heq
    injection heq with h1 h2
    subst h1
    subst h2
    simp [attach_flatMap]

theorem isContextType_eq (t : GoType) :
    isContextType t =
      (typeIsCtx t ||
        match underlying t with
        | .iface _ es => es.any isContextType
        | _ => false) := by
  rw [isContextType]
  congr 1
  split
  case h_1 ms es heq => rw [heq]; exact attach_any es isContextType
  case h_2 hni =>
    split
    case h_1 ms es heq => exact (hni ms es heq).elim
    case h_2 => rfl


/-! ## C5 scenario: capability interfaces with symbolic method ids -/

theorem methodSet_baseCtx : methodSet baseCtx = [0] := by
  rw [methodSet_iface baseCtx [0] [] rfl]; simp

theorem methodSet_capA (a : Nat) : methodSet (capA a) = [a, 0] := by
  rw [methodSet_iface (capA a) [a] [baseCtx] rfl]
  simp [methodSet_baseCtx]

theorem methodSet_capB (b : Nat) : methodSet (capB b) = [b] := by
  rw [methodSet_iface (capB b) [b] [] rfl]; simp

theorem methodSet_capC (c : Nat) : methodSet (capC c) = [c] := by
  rw [methodSet_iface (capC c) [c] [] rfl]; simp

theorem methodSet_declD (a b : Nat) : methodSet (declD a b) = [a, 0, b] := by
  rw [methodSet_iface (declD a b) [] [capA a, capB b] rfl]
  simp [methodSet_capA, methodSet_capB]

theorem methodSet_castU (b c : Nat) : methodSet (castU b c) = [b, c] := by
  rw [methodSet_iface (castU b c) [] [capB b, capC c] rfl]
  simp [methodSet_capB, methodSet_capC]

theorem implementsT_castU_capB (b c : Nat) : implementsT (castU b c) (capB b) = true := by
  simp [implementsT, methodSet_castU, methodSet_capB]

theorem implementsT_castU_capA (a b c : Nat) (hab : a ≠ b) (hac : a ≠ c)
    (hb0 : b ≠ 0) (hc0 : c ≠ 0) : implementsT (castU b c) (capA a) = false := by
  simp [implementsT, methodSet_castU, methodSet_capA, Ne.symm hb0, Ne.symm hc0, hab, hac]

theorem implementsT_declD_capB (a b : Nat) : implementsT (declD a b) (capB b) = true := by
  simp [implementsT, methodSet_declD, methodSet_capB]

theorem implementsT_declD_capC (a b c : Nat) (hac : a ≠ c) (hbc : b ≠ c)
    (hc0 : c ≠ 0) : implementsT (declD a b) (capC c) = false := by
  simp [implementsT, methodSet_declD, methodSet_capC, Ne.symm hac, Ne.symm hbc, hc0]

theorem explicitInterfaces_capA (a : Nat) :
    explicitInterfaces (capA a) (some 2) = [capA a] := by
  rw [capA, explicitInterfaces_named 10 (some 1) true (.iface [a] [baseCtx]) (some 2) [a] [baseCtx] rfl]
  simp

theorem explicitInterfaces_capB (b : Nat) :
    explicitInterfaces (capB b) (some 2) = [capB b] := by
  rw [capB, explicitInterfaces_named 11 (some 1) true (.iface [b] []) (some 2) [b] [] rfl]
  simp

theorem explicitInterfaces_capC (c : Nat) :
    explicitInterfaces (capC c) (some 2) = [capC c] := by
  rw [capC, explicitInterfaces_named 12 (some 1) true (.iface [c] []) (some 2) [c] [] rfl]
  simp

theorem explicitInterfaces_declD (a b : Nat) :
    explicitInterfaces (declD a b) (some 2) = [capA a, capB b] := by
  rw [declD, explicitInterfaces_unnamed]
  simp [explicitInterfaces_capA, explicitInterfaces_capB]

theorem explicitInterfaces_castU (b c : Nat) :
    explicitInterfaces (castU b c) (some 2) = [capB b, capC c] := by
  rw [castU, explicitInterfaces_unnamed]
  simp [explicitInterfaces_capB, explicitInterfaces_capC]

theorem leafInterfaces_declD (a b : Nat) :
    leafInterfaces (declD a b) = [capA a, capB b] := by
  rw [leafInterfaces_iface (declD a b) [] [capA a, capB b] rfl]
  simp [leafInterfaces_iface (capA a) [a] [baseCtx] rfl,
    leafInterfaces_iface (capB b) [b] [] rfl]

theorem isContextType_declD (a b : Nat) : isContextType (declD a b) = true := by
  rw [isContextType_eq]
  have h1 : isContextType baseCtx = true := by
    rw [isContextType_eq]; simp [typeIsCtx, baseCtx]
  have h2 : isContextType (capA a) = true := by
    rw [isContextType_eq]
    simp only [underlying]
    simp [h1]
  simp only [underlying]
  simp [h2]


theorem requested_capB_of_cast (a b c : Nat) :
    interfaceWasRequested ⟨⟨5, "ctx", declD a b, some 2⟩, [castU b c], [], false⟩ (capB b) = true := by
  rw [interfaceWasRequested_unfold]
  split_ifs with h1 h2 h3
  · rfl
  · rfl
  · rfl
  · exfalso
    apply h3
    rw [explicitInterfaces_declD]
    simp [List.contains]

theorem requested_capC_of_cast (a b c : Nat) (hac : a ≠ c) (hbc : b ≠ c) (hc0 : c ≠ 0) :
    interfaceWasRequested ⟨⟨5, "ctx", declD a b, some 2⟩, [castU b c], [], false⟩ (capC c) = true := by
  rw [interfaceWasRequested_unfold]
  split_ifs with h1 h2 h3
  · rfl
  · rfl
  · rfl
  · exfalso
    apply h1
    show (!implementsT (declD a b) (capC c)) = true
    rw [implementsT_declD_capC a b c hac hbc hc0]
    rfl

/-- C5: a tracked variable of declared capability set {A, B}, cast to
an interface of capability set {B, C}, counts B as used, leaves A
unused, and yields no unrequested report (in particular none for C),
because the declared type does not structurally satisfy C. -/
theorem cast_marks_overlap_only (a b c : Nat) (hab : a ≠ b) (hac : a ≠ c)
    (hbc : b ≠ c) (ha0 : a ≠ 0) (hb0 : b ≠ 0) (hc0 : c ≠ 0) :
    lookupInfo
        (markCastUsed (track [] (some ⟨5, "ctx", declD a b, some 2⟩)) (some 5) (castU b c)) 5 =
      some ⟨⟨5, "ctx", declD a b, some 2⟩, [castU b c], [], false⟩ ∧
    leafInterfaces (declD a b) = [capA a, capB b] ∧
    interfaceWasUsed ⟨⟨5, "ctx", declD a b, some 2⟩, [castU b c], [], false⟩ (capB b) = true ∧
    interfaceWasUsed ⟨⟨5, "ctx", declD a b, some 2⟩, [castU b c], [], false⟩ (capA a) = false ∧
    implementsT (declD a b) (capC c) = false ∧
    (problems ⟨⟨5, "ctx", declD a b, some 2⟩, [castU b c], [], false⟩).2.2 = [] := by
  refine ⟨?_, leafInterfaces_declD a b, ?_, ?_, implementsT_declD_capC a b c hac hbc hc0, ?_⟩
  · rw [track]
    simp only [isContextType_declD]
    rw [leafInterfaces_declD]
    simp [markCastUsed, addInterfaceUse, mapInfo, lookupInfo]
  · rw [interfaceWasUsed]
    split
    case h_2 hni => exact (hni [b] [] rfl).elim
    case h_1 =>
      simp [implementsT_castU_capB]
  · rw [interfaceWasUsed]
    split
    case h_2 hni => exact (hni [a] [baseCtx] rfl).elim
    case h_1 =>
      simp [implementsT_castU_capA a b c hab hac hb0 hc0]
  · simp only [problems]
    simp [explicitInterfaces_castU, requested_capB_of_cast a b c,
      requested_capC_of_cast a b c hac hbc hc0]

/-- An interface the evaluator considers requested never appears in the
unrequested component of `problems`: the use loop filters on
`interfaceWasRequested`, and the method loop only reports the
`embedsExplicitlyContaining` list when every element of it fails
`interfaceWasRequested`. -/
theorem not_mem_unrequested_of_requested (info : ObjInfo) (T : GoType)
    (hreq : interfaceWasRequested info T = true) : T ∉ (problems info).2.2 := by
  intro hmem
  simp only [problems, List.mem_append] at hmem
  rcases hmem with hmem | hmem
  · rw [List.mem_flatMap] at hmem
    obtain ⟨u, _, hf⟩ := hmem
    rw [List.mem_filter] at hf
    have h2 := hf.2
    simp only [decide_eq_true_eq] at h2
    exact h2 hreq
  · rw [List.mem_flatMap] at hmem
    obtain ⟨m, hmf, hT⟩ := hmem
    rw [List.mem_filter] at hmf
    have hfail := hmf.2
    simp only [decide_eq_true_eq, methodWasRequested, Bool.not_eq_true] at hfail
    rw [List.any_eq_false] at hfail
    have h3 := hfail T hT
    simp [hreq] at h3

/-- C3: the constituent-equivalence fallback of
`_interfaceWasRequested`: a named interface whose explicit composition
against its home package has, besides itself, at least one element,
all of which are requested, counts as requested — and hence is never
reported in the unrequested set. -/
theorem constituent_equivalence_requested (info : ObjInfo) (i : Nat) (pkg : Option Nat)
    (ex : Bool) (u : GoType)
    (hne : (explicitInterfaces (.named i pkg ex u) pkg).filter
        (fun e => e ≠ GoType.named i pkg ex u) ≠ [])
    (hall : ∀ mention ∈ explicitInterfaces (.named i pkg ex u) pkg,
      mention ≠ .named i pkg ex u → interfaceWasRequested info mention = true) :
    interfaceWasRequested info (.named i pkg ex u) = true ∧
    GoType.named i pkg ex u ∉ (problems info).2.2 := by
  have hreq : interfaceWasRequested info (.named i pkg ex u) = true := by
    rw [interfaceWasRequested_unfold]
    split_ifs with h1 h2 h3
    · rfl
    · rfl
    · rfl
    · simp only []
      obtain ⟨x, hx⟩ := List.exists_mem_of_ne_nil _ hne
      rw [List.mem_filter] at hx
      obtain ⟨hxmem, hxdec⟩ := hx
      have hxne : x ≠ GoType.named i pkg ex u := by simpa using hxdec
      have hcond : (explicitInterfaces (.named i pkg ex u) pkg).length > 1 ∨
          ((explicitInterfaces (.named i pkg ex u) pkg).length > 0 ∧
            (explicitInterfaces (.named i pkg ex u) pkg).head? ≠
              some (.named i pkg ex u)) := by
        rcases hl : explicitInterfaces (.named i pkg ex u) pkg with _ | ⟨hd, tl⟩
        · rw [hl] at hxmem; simp at hxmem
        · rcases tl with _ | ⟨hd2, tl2⟩
          · right
            rw [hl] at hxmem
            simp only [List.mem_singleton] at hxmem
            subst hxmem
            simp [hxne]
          · left; simp
      rw [if_pos hcond, List.all_eq_true]
      rintro ⟨mention, hmmem⟩ _
      by_cases hmeq : mention = GoType.named i pkg ex u
      · simp [hmeq]
      · rw [dif_neg hmeq]
        exact hall mention hmmem hmeq
  exact ⟨hreq, not_mem_unrequested_of_requested info _ hreq⟩


theorem list_all_congr {α : Type} (l : List α) (f g : α → Bool)
    (h : ∀ x ∈ l, f x = g x) : l.all f = l.all g := by
  induction l with
  | nil => rfl
  | cons a as ih =>
      simp only [List.all_cons]
      rw [h a (by simp), ih fun x hx => h x (by simp [hx])]

/-- `_interfaceWasRequested` reads only the variable's object (its type
and package), never the usage sets or the cached flag. -/
theorem interfaceWasRequested_obj_congr (t : GoType) (o : Obj) (iu iu' : List GoType)
    (mu mu' : List Nat) (ic ic' : Bool) :
    interfaceWasRequested ⟨o, iu, mu, ic⟩ t = interfaceWasRequested ⟨o, iu', mu', ic'⟩ t := by
  rw [interfaceWasRequested_unfold]
  conv_rhs => rw [interfaceWasRequested_unfold]
  have hce : castExemptB ⟨o, iu', mu', ic'⟩ = castExemptB ⟨o, iu, mu, ic⟩ := rfl
  rw [hce]
  simp only []
  split_ifs <;> try rfl
  rcases t with ⟨i, pkg, ex, u⟩ | ⟨ms, es⟩ | ⟨ps, v⟩ | fs | cs <;> simp only [] <;> try rfl
  split_ifs <;> try rfl
  apply list_all_congr
  intro x hx
  split_ifs with h5
  · rfl
  · exact interfaceWasRequested_obj_congr x.1 o iu iu' mu mu' ic ic'
termination_by sizeOf t
decreasing_by
  all_goals
    rcases mem_explicitInterfaces_size _ _ _ x.2 with he | he
    · exact absurd he h5
    · exact he



/-! ## C3 / C10 concrete scenarios -/

unseal explicitInterfaces interfaceWasRequested methodSet leafInterfaces embedsExplicitlyContaining isContextType in
/-- C3 witness: declaring {J, K} directly and using I (which composes
exactly {J, K}) is not flagged unrequested for I. -/
theorem constituent_equivalence_requested_witness :
    interfaceWasRequested infoJK wholeI = true ∧ wholeI ∉ (problems infoJK).2.2 :=
  constituent_equivalence_requested infoJK 32 (some 1) true (.iface [] [partJ, partK])
    (by decide) (by decide)

unseal explicitInterfaces interfaceWasRequested methodSet leafInterfaces embedsExplicitlyContaining isContextType in
/-- C10 counterexample: a recorded use whose used-as type is an unnamed
interface with an explicit method CAN contribute an entry to the
unrequested set — the entry is its named constituent `foreignJ` — even
though the inline type itself is treated as requested.  So "such a use
can never contribute an entry to the variable's unrequested set" is
false as stated. -/
theorem inline_iface_use_contributes_entry :
    infoInline.interfaceUses = [inlineU] ∧
    inlineU = .iface [6] [foreignJ] ∧
    (lookupInfo (track [] (some infoInline.obj)) 7).isSome = true ∧
    (problems infoInline).2.2 = [foreignJ] :=
  ⟨rfl, rfl, by decide, by decide⟩

/-- C10 amended: a use as an unnamed interface with at least one
explicit method is always treated as requested, and the used-as type
itself never appears among the unrequested entries; only its named
constituents can be reported. -/
theorem inline_iface_use_always_requested (info : ObjInfo) (ms : List Nat)
    (es : List GoType) (hms : ms ≠ []) :
    interfaceWasRequested info (.iface ms es) = true ∧
    GoType.iface ms es ∉ (problems info).2.2 := by
  have hreq : interfaceWasRequested info (.iface ms es) = true := by
    rw [interfaceWasRequested.eq_def]
    split_ifs with h1 h2 h3
    · rfl
    · rfl
    · rfl
    · exfalso
      apply h2
      simp only [inlineWithMethodsB]
      simpa using List.length_pos.mpr hms
  exact ⟨hreq, not_mem_unrequested_of_requested info _ hreq⟩

unseal explicitInterfaces interfaceWasRequested methodSet leafInterfaces embedsExplicitlyContaining isContextType in
/-- C10 amended witness: evaluated at the concrete inline interface. -/
theorem inline_iface_use_always_requested_witness :
    interfaceWasRequested infoInline (.iface [6] [foreignJ]) = true ∧
    GoType.iface [6] [foreignJ] ∉ (problems infoInline).2.2 :=
  inline_iface_use_always_requested infoInline [6] [foreignJ] (by decide)

/-! ## C8: the identifier collector -/

/-- C8: an identifier is tracked iff it is not the discard identifier,
its type is context-like, and its leaf groups are non-empty and not
exactly the singleton base context. -/
theorem track_iff_conditions (o : Obj) :
    (lookupInfo (track [] (some o)) o.id).isSome = true ↔
      (o.name ≠ "_" ∧ isContextType o.typ = true ∧ leafInterfaces o.typ ≠ [] ∧
        ¬ ∃ t, leafInterfaces o.typ = [t] ∧ typeIsCtx t = true) := by
  have hmatch : ∀ l : List GoType,
      ((match l with
        | [t] => typeIsCtx t
        | _ => false) = true) ↔ ∃ t, l = [t] ∧ typeIsCtx t = true := by
    intro l
    rcases l with _ | ⟨a, _ | ⟨b, tl⟩⟩ <;> simp
  rw [track]
  simp only []
  by_cases h1 : o.name = "_" ∨ isContextType o.typ = false
  · rw [if_pos h1]
    apply iff_of_false (by simp [lookupInfo])
    rintro ⟨hn, hc, _, _⟩
    rcases h1 with h | h
    · exact hn h
    · rw [h] at hc; cases hc
  · rw [if_neg h1]
    push_neg at h1
    by_cases h2 : (leafInterfaces o.typ).length = 0
    · rw [if_pos h2]
      apply iff_of_false (by simp [lookupInfo])
      rintro ⟨_, _, hleaf, _⟩
      exact hleaf (List.length_eq_zero.mp h2)
    · rw [if_neg h2]
      by_cases h3 : (match leafInterfaces o.typ with
          | [t] => typeIsCtx t
          | _ => false) = true
      · rw [if_pos h3]
        apply iff_of_false (by simp [lookupInfo])
        rintro ⟨_, _, _, hnotsing⟩
        exact hnotsing ((hmatch _).mp h3)
      · rw [if_neg h3]
        apply iff_of_true (by simp [lookupInfo])
        refine ⟨h1.1, ?_, ?_, ?_⟩
        · rcases h : isContextType o.typ with _ | _
          · exact absurd h h1.2
          · rfl
        · intro hleaf
          exact h2 (by rw [hleaf]; rfl)
        · intro hsing
          exact h3 ((hmatch _).mpr hsing)

/-! ## C2: the dead isCached flag -/

unseal explicitInterfaces interfaceWasRequested methodSet leafInterfaces embedsExplicitlyContaining isContextType in
/-- C2: `problems` is entirely insensitive to the `isCached` flag (the
flag is written by `_markCachedFunctionUsed` but never read), so a
cached variable with no recorded uses is still reported entirely
unused, contradicting the spec's exemption. -/
theorem problems_ignores_isCached_bug :
    (∀ (info : ObjInfo) (b : Bool), problems { info with isCached := b } = problems info) ∧
    lookupInfo (markCachedFunctionUsed (track [] (some cachedIdleInfo.obj)) cacheCall) 6 =
      some cachedIdleInfo ∧
    cachedIdleInfo.isCached = true ∧
    (problems cachedIdleInfo).1 = true := by
  refine ⟨?_, by decide, rfl, by decide⟩
  intro info b
  obtain ⟨o, iu, mu, ic⟩ := info
  have hreq : ∀ t, interfaceWasRequested ⟨o, iu, mu, b⟩ t =
      interfaceWasRequested ⟨o, iu, mu, ic⟩ t :=
    fun t => interfaceWasRequested_obj_congr t o iu iu mu mu b ic
  simp only [problems, interfaceWasUsed, methodWasRequested, hreq]


/-! ## C4 / C7: the capability-graph resolver equations -/

/-- C4: `_explicitInterfaces` satisfies the specified case analysis:
a type whose underlying type is not an interface yields the empty set;
a named interface from a package other than `P` yields exactly itself;
a named exported interface of `P` yields itself together with the
explicit compositions of its directly embedded interfaces; a named
unexported interface of `P`, or an unnamed interface, yields only the
union over its embedded interfaces. -/
theorem explicitInterfaces_spec_cases (t : GoType) (P : Option Nat) :
    ((∀ ms es, underlying t ≠ .iface ms es) → explicitInterfaces t P = []) ∧
    (∀ i pkg ex u ms es, t = .named i pkg ex u → underlying t = .iface ms es →
      pkg ≠ P → explicitInterfaces t P = [t]) ∧
    (∀ i ex u ms es, t = .named i P ex u → underlying t = .iface ms es →
      ex = true →
      explicitInterfaces t P = t :: es.flatMap (fun e => explicitInterfaces e P)) ∧
    (∀ i u ms es, t = .named i P false u → underlying t = .iface ms es →
      explicitInterfaces t P = es.flatMap fun e => explicitInterfaces e P) ∧
    (∀ ms es, t = .iface ms es →
      explicitInterfaces t P = es.flatMap fun e => explicitInterfaces e P) := by
  refine ⟨explicitInterfaces_not_iface t P, ?_, ?_, ?_, ?_⟩
  · intro i pkg ex u ms es ht hu hne
    subst ht
    rw [explicitInterfaces_named i pkg ex u P ms es hu]
    rw [if_pos hne]
  · intro i ex u ms es ht hu hex
    subst ht
    rw [explicitInterfaces_named i P ex u P ms es hu]
    simp [hex]
  · intro i u ms es ht hu
    subst ht
    rw [explicitInterfaces_named i P false u P ms es hu]
    simp
  · intro ms es ht
    subst ht
    exact explicitInterfaces_unnamed ms es P

/-- C4 witness: the cases evaluated at concrete types. -/
theorem explicitInterfaces_spec_cases_witness :
    explicitInterfaces (.sig [] false) (some 2) = [] ∧
    explicitInterfaces (.named 11 (some 1) true (.iface [2] [])) (some 2) =
      [.named 11 (some 1) true (.iface [2] [])] ∧
    explicitInterfaces (.named 11 (some 2) true (.iface [2] [])) (some 2) =
      .named 11 (some 2) true (.iface [2] []) ::
        ([] : List GoType).flatMap (fun e => explicitInterfaces e (some 2)) ∧
    explicitInterfaces (.named 11 (some 2) false (.iface [2] [])) (some 2) =
      ([] : List GoType).flatMap (fun e => explicitInterfaces e (some 2)) ∧
    explicitInterfaces (.iface [2] []) (some 2) =
      ([] : List GoType).flatMap fun e => explicitInterfaces e (some 2) :=
  ⟨(explicitInterfaces_spec_cases _ _).1 (fun ms es h => by cases h),
   (explicitInterfaces_spec_cases _ _).2.1 11 (some 1) true _ [2] [] rfl rfl (by decide),
   (explicitInterfaces_spec_cases _ _).2.2.1 11 true _ [2] [] rfl rfl rfl,
   (explicitInterfaces_spec_cases _ _).2.2.2.1 11 _ [2] [] rfl rfl,
   (explicitInterfaces_spec_cases _ _).2.2.2.2 [2] [] rfl⟩

/-- C7: `_leafInterfaces` satisfies the specified case analysis: a
non-interface yields the empty set; an interface with at least one
explicit method yields exactly the type itself, with no recursion into
its embeds; a method-less interface yields the union of the leaf
groups of its directly embedded interfaces. -/
theorem leafInterfaces_spec_cases (t : GoType) :
    ((∀ ms es, underlying t ≠ .iface ms es) → leafInterfaces t = []) ∧
    (∀ ms es, underlying t = .iface ms es → ms.length > 0 →
      leafInterfaces t = [t]) ∧
    (∀ es, underlying t = .iface [] es →
      leafInterfaces t = es.flatMap leafInterfaces) := by
  refine ⟨?_, ?_, ?_⟩
  · intro hni
    rw [leafInterfaces]
    split
    case h_2 => rfl
    case h_1 ms es heq => exact (hni ms es heq).elim
  · intro ms es hu hms
    rw [leafInterfaces_iface t ms es hu, if_pos hms]
  · intro es hu
    rw [leafInterfaces_iface t [] es hu]
    simp

/-- C7 witness: the three cases evaluated at concrete types. -/
theorem leafInterfaces_spec_cases_witness :
    leafInterfaces (.strct []) = [] ∧
    leafInterfaces (.named 11 (some 1) true (.iface [2] [.iface [3] []])) =
      [.named 11 (some 1) true (.iface [2] [.iface [3] []])] ∧
    leafInterfaces (.iface [] [.iface [3] []]) =
      [GoType.iface [3] []].flatMap leafInterfaces :=
  ⟨(leafInterfaces_spec_cases _).1 (fun ms es h => by cases h),
   (leafInterfaces_spec_cases _).2.1 [2] [.iface [3] []] rfl (by decide),
   (leafInterfaces_spec_cases _).2.2 [.iface [3] []] rfl⟩

/-! ## C9: type switches -/

/-- C9: a type-switch head `x.(type)` (a type assertion without an
explicit target type) records no use at all, while a type assertion
with an explicit target type is recorded as a cast use. -/
theorem typeSwitch_records_no_use (m : MarkMap) (x : Option Nat) :
    markUsesNode m (.typeAssert x none) = some m ∧
    ∀ t, markUsesNode m (.typeAssert x (some t)) = some (markCastUsed m x t) :=
  ⟨rfl, fun _ => rfl⟩

unseal methodSet leafInterfaces explicitInterfaces interfaceWasRequested embedsExplicitlyContaining isContextType in
/-- C5 witness: the cast scenario at method ids 1, 2, 3. -/
theorem cast_marks_overlap_only_witness :
    lookupInfo
        (markCastUsed (track [] (some ⟨5, "ctx", declD 1 2, some 2⟩)) (some 5) (castU 2 3)) 5 =
      some ⟨⟨5, "ctx", declD 1 2, some 2⟩, [castU 2 3], [], false⟩ ∧
    leafInterfaces (declD 1 2) = [capA 1, capB 2] ∧
    interfaceWasUsed ⟨⟨5, "ctx", declD 1 2, some 2⟩, [castU 2 3], [], false⟩ (capB 2) = true ∧
    interfaceWasUsed ⟨⟨5, "ctx", declD 1 2, some 2⟩, [castU 2 3], [], false⟩ (capA 1) = false ∧
    implementsT (declD 1 2) (capC 3) = false ∧
    (problems ⟨⟨5, "ctx", declD 1 2, some 2⟩, [castU 2 3], [], false⟩).2.2 = [] :=
  cast_marks_overlap_only 1 2 3 (by decide) (by decide) (by decide) (by decide)
    (by decide) (by decide)


/-! ## C1: completion under the well-typedness precondition -/

theorem markCompLitElt_foldlM_isSome (fields : List GoType) (l : List (Nat × CompElt))
    (hl : ∀ ie ∈ l, (match ie.2 with
      | CompElt.unkeyed _ => decide (ie.1 < fields.length)
      | CompElt.keyed _ _ => true) = true) :
    ∀ m : MarkMap, (l.foldlM (markCompLitElt fields) m).isSome = true := by
  induction l with
  | nil => intro m; rfl
  | cons ie rest ih =>
      intro m
      rw [List.foldlM_cons]
      rcases ie with ⟨i, elt⟩
      rcases elt with ⟨kty, v⟩ | v
      · simp only [markCompLitElt]
        exact ih (fun x hx => hl x (by simp [hx])) _
      · have hi := hl (i, .unkeyed v) (by simp)
        simp only [decide_eq_true_eq] at hi
        simp only [markCompLitElt]
        rcases hg : fields[i]? with _ | fty
        · rw [List.getElem?_eq_none_iff] at hg
          omega
        · simp only []
          exact ih (fun x hx => hl x (by simp [hx])) _

theorem markUsesNode_isSome (m : MarkMap) (n : Node) (h : wellTypedNode n = true) :
    (markUsesNode m n).isSome = true := by
  rcases n with ⟨x, t?⟩ | c | ⟨t?, elts⟩
  · rcases t? with _ | t <;> rfl
  · simp only [markUsesNode]
    rcases hft : underlying c.funType with _ | _ | ⟨ps, v⟩ | _ | _ <;>
      simp [wellTypedNode, hft] at h <;>
      simp [markArgsUsed, hft]
  · simp only [markUsesNode, markCompositeLitValuesUsed]
    by_cases hempty : elts.isEmpty
    · simp [hempty]
    · rw [if_neg hempty]
      rcases t? with _ | typ
      · rfl
      · simp only [wellTypedNode] at h
        rcases hut : underlying typ with _ | _ | _ | fields | _
        · simp only [hut]; rfl
        · simp only [hut]; rfl
        · simp only [hut]; rfl
        · simp only [hut] at h ⊢
          refine markCompLitElt_foldlM_isSome fields elts.enum ?_ m
          intro ie hie
          rw [List.all_eq_true] at h
          exact h ie hie
        · simp only [hut]; rfl

/-- C1: on a well-typed, successfully-compiled input (every call's
callee type underlies to a function signature; every positional
composite-literal element has a corresponding struct field) the usage
tracker's walk completes: no abort branch — in particular not
`_markArgsUsed`'s `panic("Bad Signature?")` — is ever taken. -/
theorem markUses_completes_on_wellTyped (m : MarkMap) (nodes : List Node)
    (h : ∀ n ∈ nodes, wellTypedNode n = true) :
    (markUses m nodes).isSome = true := by
  induction nodes generalizing m with
  | nil => rfl
  | cons n rest ih =>
      rw [markUses, List.foldlM_cons]
      have h1 := markUsesNode_isSome m n (h n (by simp))
      rcases hn : markUsesNode m n with _ | m'
      · rw [hn] at h1; cases h1
      · have hrest := ih m' fun x hx => h x (by simp [hx])
        rw [markUses] at hrest
        simpa using hrest

/-- C1 witness: a small well-typed node list (a call marking a tracked
argument, a type switch, a keyed and a positional composite-literal
element) is processed to completion. -/
theorem markUses_completes_on_wellTyped_witness :
    (∀ n ∈ [Node.call ⟨.sig [(1, baseCtx)] false, "f", [some 1], none, none⟩,
        Node.typeAssert (some 1) none,
        Node.compositeLit (some (.strct [baseCtx])) [.unkeyed (some 1)]],
      wellTypedNode n = true) ∧
    (markUses []
      [Node.call ⟨.sig [(1, baseCtx)] false, "f", [some 1], none, none⟩,
        Node.typeAssert (some 1) none,
        Node.compositeLit (some (.strct [baseCtx])) [.unkeyed (some 1)]]).isSome = true :=
  ⟨by decide, markUses_completes_on_wellTyped _ _ (by decide)⟩


/-! ## C6: the interface-method unifier -/

theorem alookup_aset (m : TMap) (k v k' : Nat) :
    alookup (aset m k v) k' = if k = k' then some v else alookup m k' := rfl

theorem blookup_bset (m : MBM) (k : Nat) (v : Option Nat) (k' : Nat) :
    blookup (bset m k v) k' = if k = k' then some v else blookup m k' := rfl

theorem paramsOf_cons_none {d : RecvDef} {rest : List RecvDef} (hp : d.param0 = none) :
    paramsOf (d :: rest) = paramsOf rest := by
  simp [paramsOf, List.filterMap_cons, hp]

theorem paramsOf_cons_some {d : RecvDef} {rest : List RecvDef} {p : Nat}
    (hp : d.param0 = some p) : paramsOf (d :: rest) = p :: paramsOf rest := by
  simp [paramsOf, List.filterMap_cons, hp]

/-- Lemma A for the unifier: once a canonical record `r` is seeded for
method `mId`, the rest of the fold keeps it, points every qualifying
declaration's parameter at `r`, and touches no other parameter. -/
theorem unify_fold_seeded (tm0 : TMap) (mId r : Nat) (elig : List RecvDef) :
    ∀ (mbm : MBM) (tm : TMap),
      blookup mbm mId = some (some r) →
      (∀ d ∈ elig, d.methodId = mId → ∀ p, d.param0 = some p →
        alookup tm p = alookup tm0 p) →
      (paramsOf elig).Nodup →
      blookup (elig.foldl unifyStep (mbm, tm)).1 mId = some (some r) ∧
      (∀ d ∈ elig, qualifies tm0 mId d = true → ∀ p, d.param0 = some p →
        alookup (elig.foldl unifyStep (mbm, tm)).2 p = some r) ∧
      (∀ p, p ∉ paramsOf elig →
        alookup (elig.foldl unifyStep (mbm, tm)).2 p = alookup tm p) := by
  induction elig with
  | nil =>
      intro mbm tm hm _ _
      exact ⟨hm, by simp, fun p _ => rfl⟩
  | cons d rest ih =>
      intro mbm tm hm hfresh hnd
      simp only [List.foldl_cons]
      rcases hb : blookup mbm d.methodId with _ | canon
      · -- not a method of this interface: step is the identity
        have hstep : unifyStep (mbm, tm) d = (mbm, tm) := by simp [unifyStep, hb]
        rw [hstep]
        have hdm : d.methodId ≠ mId := by
          intro he; rw [he, hm] at hb; cases hb
        have hnd' : (paramsOf rest).Nodup := by
          rcases hp : d.param0 with _ | p
          · rwa [paramsOf_cons_none hp] at hnd
          · rw [paramsOf_cons_some hp] at hnd; exact hnd.of_cons
        obtain ⟨ih1, ih2, ih3⟩ := ih mbm tm hm
          (fun d' hd' => hfresh d' (List.mem_cons_of_mem _ hd')) hnd'
        refine ⟨ih1, ?_, ?_⟩
        · intro d' hd' hq' p' hp'
          rcases List.mem_cons.mp hd' with rfl | hd'
          · exfalso
            simp only [qualifies, Bool.and_eq_true, beq_iff_eq] at hq'
            exact hdm hq'.1
          · exact ih2 d' hd' hq' p' hp'
        · intro p' hp'
          refine ih3 p' ?_
          rcases hp : d.param0 with _ | p
          · rwa [paramsOf_cons_none hp] at hp'
          · rw [paramsOf_cons_some hp] at hp'; exact fun hmem => hp' (by simp [hmem])
      · rcases hp : d.param0 with _ | p
        · -- no named first parameter: step is the identity
          have hstep : unifyStep (mbm, tm) d = (mbm, tm) := by simp [unifyStep, hb, hp]
          rw [hstep]
          have hnd' : (paramsOf rest).Nodup := by rwa [paramsOf_cons_none hp] at hnd
          obtain ⟨ih1, ih2, ih3⟩ := ih mbm tm hm
            (fun d' hd' => hfresh d' (List.mem_cons_of_mem _ hd')) hnd'
          refine ⟨ih1, ?_, ?_⟩
          · intro d' hd' hq' p' hp'
            rcases List.mem_cons.mp hd' with rfl | hd'
            · simp [qualifies, hp] at hq'
            · exact ih2 d' hd' hq' p' hp'
          · intro p' hp'
            exact ih3 p' (by rwa [paramsOf_cons_none hp] at hp')
        · have hnodup := hnd
          rw [paramsOf_cons_some hp] at hnodup
          have hpnotin : p ∉ paramsOf rest := (List.nodup_cons.mp hnodup).1
          have hnd' : (paramsOf rest).Nodup := (List.nodup_cons.mp hnodup).2
          rcases ha : alookup tm p with _ | r'
          · -- parameter not tracked: step is the identity
            have hstep : unifyStep (mbm, tm) d = (mbm, tm) := by
              simp [unifyStep, hb, hp, ha]
            rw [hstep]
            obtain ⟨ih1, ih2, ih3⟩ := ih mbm tm hm
              (fun d' hd' => hfresh d' (List.mem_cons_of_mem _ hd')) hnd'
            refine ⟨ih1, ?_, ?_⟩
            · intro d' hd' hq' p' hp'
              rcases List.mem_cons.mp hd' with rfl | hd'
              · exfalso
                simp only [qualifies, hp, Bool.and_eq_true, beq_iff_eq] at hq'
                have hfr := hfresh d' (by simp) hq'.1 p hp
                rw [hfr] at ha
                rw [ha] at hq'
                simp at hq'
              · exact ih2 d' hd' hq' p' hp'
            · intro p' hp'
              exact ih3 p' fun hmem => hp' (by rw [paramsOf_cons_some hp]; simp [hmem])
          · rcases hdm : decide (d.methodId = mId) with _ | _
            · -- other method of the interface: step may seed or adopt there
              have hdm' : d.methodId ≠ mId := by simpa using hdm
              rcases canon with _ | c
              · -- seed for the other method: tm unchanged
                have hstep : unifyStep (mbm, tm) d =
                    (bset mbm d.methodId (some r'), tm) := by
                  simp [unifyStep, hb, hp, ha]
                rw [hstep]
                have hm2 : blookup (bset mbm d.methodId (some r')) mId = some (some r) := by
                  rw [blookup_bset, if_neg hdm']
                  exact hm
                obtain ⟨ih1, ih2, ih3⟩ := ih _ tm hm2
                  (fun d' hd' => hfresh d' (List.mem_cons_of_mem _ hd')) hnd'
                refine ⟨ih1, ?_, ?_⟩
                · intro d' hd' hq' p' hp'
                  rcases List.mem_cons.mp hd' with rfl | hd'
                  · exfalso
                    simp only [qualifies, Bool.and_eq_true, beq_iff_eq] at hq'
                    exact hdm' hq'.1
                  · exact ih2 d' hd' hq' p' hp'
                · intro p' hp'
                  exact ih3 p' fun hmem => hp' (by rw [paramsOf_cons_some hp]; simp [hmem])
              · -- adopt for the other method: writes only at p
                have hstep : unifyStep (mbm, tm) d = (mbm, aset tm p c) := by
                  simp [unifyStep, hb, hp, ha]
                rw [hstep]
                have hfresh' : ∀ d' ∈ rest, d'.methodId = mId → ∀ p', d'.param0 = some p' →
                    alookup (aset tm p c) p' = alookup tm0 p' := by
                  intro d' hd' hdm2 p' hp'
                  have hne : p ≠ p' := by
                    intro he
                    exact hpnotin (he ▸ List.mem_filterMap.mpr ⟨d', hd', hp'⟩)
                  rw [alookup_aset, if_neg hne]
                  exact hfresh d' (List.mem_cons_of_mem _ hd') hdm2 p' hp'
                obtain ⟨ih1, ih2, ih3⟩ := ih mbm (aset tm p c) hm hfresh' hnd'
                refine ⟨ih1, ?_, ?_⟩
                · intro d' hd' hq' p' hp'
                  rcases List.mem_cons.mp hd' with rfl | hd'
                  · exfalso
                    simp only [qualifies, Bool.and_eq_true, beq_iff_eq] at hq'
                    exact hdm' hq'.1
                  · exact ih2 d' hd' hq' p' hp'
                · intro p' hp'
                  have hne : p ≠ p' := by
                    intro he
                    subst he
                    exact hp' (by rw [paramsOf_cons_some hp]; simp)
                  have hrest : p' ∉ paramsOf rest := fun hmem =>
                    hp' (by rw [paramsOf_cons_some hp]; simp [hmem])
                  rw [ih3 p' hrest, alookup_aset, if_neg hne]
            · -- this method: canonical is seeded, so adopt r
              have hdm' : d.methodId = mId := by simpa using hdm
              have hcr : canon = some r := by
                rw [hdm', hm] at hb
                injection hb with h
                exact h.symm
              subst hcr
              have hstep : unifyStep (mbm, tm) d = (mbm, aset tm p r) := by
                simp [unifyStep, hb, hp, ha]
              rw [hstep]
              have hfresh' : ∀ d' ∈ rest, d'.methodId = mId → ∀ p', d'.param0 = some p' →
                  alookup (aset tm p r) p' = alookup tm0 p' := by
                intro d' hd' hdm2 p' hp'
                have hne : p ≠ p' := by
                  intro he
                  exact hpnotin (he ▸ List.mem_filterMap.mpr ⟨d', hd', hp'⟩)
                rw [alookup_aset, if_neg hne]
                exact hfresh d' (List.mem_cons_of_mem _ hd') hdm2 p' hp'
              obtain ⟨ih1, ih2, ih3⟩ := ih mbm (aset tm p r) hm hfresh' hnd'
              refine ⟨ih1, ?_, ?_⟩
              · intro d' hd' hq' p' hp'
                rcases List.mem_cons.mp hd' with rfl | hd'
                · have hpp : p' = p := by
                    rw [hp] at hp'
                    injection hp' with h
                    exact h.symm
                  subst hpp
                  rw [ih3 p' hpnotin, alookup_aset, if_pos rfl]
                · exact ih2 d' hd' hq' p' hp'
              · intro p' hp'
                have hne : p ≠ p' := by
                  intro he
                  subst he
                  exact hp' (by rw [paramsOf_cons_some hp]; simp)
                have hrest : p' ∉ paramsOf rest := fun hmem =>
                  hp' (by rw [paramsOf_cons_some hp]; simp [hmem])
                rw [ih3 p' hrest, alookup_aset, if_neg hne]


/-- Lemma B for the unifier: from an unseeded canonical entry, the
first qualifying declaration found seeds the canonical record with its
own (original) record `r0`, every qualifying declaration's parameter
ends up pointing at `r0`, and no other parameter is touched. -/
theorem unify_fold_unseeded (tm0 : TMap) (mId : Nat) (elig : List RecvDef) :
    ∀ (mbm : MBM) (tm : TMap),
      blookup mbm mId = some none →
      (∀ d ∈ elig, d.methodId = mId → ∀ p, d.param0 = some p →
        alookup tm p = alookup tm0 p) →
      (paramsOf elig).Nodup →
      match elig.find? (qualifies tm0 mId) with
      | none =>
          ∀ p, p ∉ paramsOf elig →
            alookup (elig.foldl unifyStep (mbm, tm)).2 p = alookup tm p
      | some d0 =>
          ∃ p0 r0, d0.param0 = some p0 ∧ alookup tm0 p0 = some r0 ∧
            (∀ d ∈ elig, qualifies tm0 mId d = true → ∀ p, d.param0 = some p →
              alookup (elig.foldl unifyStep (mbm, tm)).2 p = some r0) ∧
            (∀ p, p ∉ paramsOf elig →
              alookup (elig.foldl unifyStep (mbm, tm)).2 p = alookup tm p) := by
  induction elig with
  | nil =>
      intro mbm tm _ _ _
      simp only [List.find?_nil]
      exact fun p _ => rfl
  | cons d rest ih =>
      intro mbm tm hm hfresh hnd
      simp only [List.foldl_cons]
      rcases hq : qualifies tm0 mId d with _ | _
      · -- head does not qualify: recurse after a step that cannot touch
        -- mId's entry or any remaining mId-parameter
        rw [List.find?_cons_of_neg _ (by simp [hq])]
        rcases hb : blookup mbm d.methodId with _ | canon
        · have hstep : unifyStep (mbm, tm) d = (mbm, tm) := by simp [unifyStep, hb]
          rw [hstep]
          have hnd' : (paramsOf rest).Nodup := by
            rcases hp : d.param0 with _ | p
            · rwa [paramsOf_cons_none hp] at hnd
            · rw [paramsOf_cons_some hp] at hnd; exact hnd.of_cons
          have hres := ih mbm tm hm
            (fun d' hd' => hfresh d' (List.mem_cons_of_mem _ hd')) hnd'
          rcases hf : rest.find? (qualifies tm0 mId) with _ | d0 <;> rw [hf] at hres
          · intro p' hp'
            refine hres p' ?_
            rcases hp : d.param0 with _ | p
            · rwa [paramsOf_cons_none hp] at hp'
            · rw [paramsOf_cons_some hp] at hp'; exact fun hmem => hp' (by simp [hmem])
          · obtain ⟨p0, r0, h1, h2, h3, h4⟩ := hres
            refine ⟨p0, r0, h1, h2, ?_, ?_⟩
            · intro d' hd' hq' p' hp'
              rcases List.mem_cons.mp hd' with rfl | hd'
              · rw [hq'] at hq; cases hq
              · exact h3 d' hd' hq' p' hp'
            · intro p' hp'
              refine h4 p' ?_
              rcases hp : d.param0 with _ | p
              · rwa [paramsOf_cons_none hp] at hp'
              · rw [paramsOf_cons_some hp] at hp'; exact fun hmem => hp' (by simp [hmem])
        · rcases hp : d.param0 with _ | p
          · have hstep : unifyStep (mbm, tm) d = (mbm, tm) := by
              simp [unifyStep, hb, hp]
            rw [hstep]
            have hnd' : (paramsOf rest).Nodup := by rwa [paramsOf_cons_none hp] at hnd
            have hres := ih mbm tm hm
              (fun d' hd' => hfresh d' (List.mem_cons_of_mem _ hd')) hnd'
            rcases hf : rest.find? (qualifies tm0 mId) with _ | d0 <;> rw [hf] at hres
            · intro p' hp'
              exact hres p' (by rwa [paramsOf_cons_none hp] at hp')
            · obtain ⟨p0, r0, h1, h2, h3, h4⟩ := hres
              refine ⟨p0, r0, h1, h2, ?_, ?_⟩
              · intro d' hd' hq' p' hp'
                rcases List.mem_cons.mp hd' with rfl | hd'
                · rw [hq'] at hq; cases hq
                · exact h3 d' hd' hq' p' hp'
              · intro p' hp'
                exact h4 p' (by rwa [paramsOf_cons_none hp] at hp')
          · have hnodup := hnd
            rw [paramsOf_cons_some hp] at hnodup
            have hpnotin : p ∉ paramsOf rest := (List.nodup_cons.mp hnodup).1
            have hnd' : (paramsOf rest).Nodup := (List.nodup_cons.mp hnodup).2
            rcases ha : alookup tm p with _ | r'
            · have hstep : unifyStep (mbm, tm) d = (mbm, tm) := by
                simp [unifyStep, hb, hp, ha]
              rw [hstep]
              have hres := ih mbm tm hm
                (fun d' hd' => hfresh d' (List.mem_cons_of_mem _ hd')) hnd'
              rcases hf : rest.find? (qualifies tm0 mId) with _ | d0 <;> rw [hf] at hres
              · intro p' hp'
                refine hres p' fun hmem => hp' ?_
                rw [paramsOf_cons_some hp]; simp [hmem]
              · obtain ⟨p0, r0, h1, h2, h3, h4⟩ := hres
                refine ⟨p0, r0, h1, h2, ?_, ?_⟩
                · intro d' hd' hq' p' hp'
                  rcases List.mem_cons.mp hd' with rfl | hd'
                  · rw [hq'] at hq; cases hq
                  · exact h3 d' hd' hq' p' hp'
                · intro p' hp'
                  refine h4 p' fun hmem => hp' ?_
                  rw [paramsOf_cons_some hp]; simp [hmem]
            · -- tracked parameter of a non-qualifying declaration: its
              -- method must be another method of the interface
              have hdm' : d.methodId ≠ mId := by
                intro he
                have hfr := hfresh d (by simp) he p hp
                rw [ha] at hfr
                simp only [qualifies, hp, he, Bool.and_eq_true, beq_iff_eq] at hq
                rw [← hfr] at hq
                simp at hq
              rcases canon with _ | c
              · have hstep : unifyStep (mbm, tm) d =
                    (bset mbm d.methodId (some r'), tm) := by
                  simp [unifyStep, hb, hp, ha]
                rw [hstep]
                have hm2 : blookup (bset mbm d.methodId (some r')) mId = some none := by
                  rw [blookup_bset, if_neg hdm']; exact hm
                have hres := ih _ tm hm2
                  (fun d' hd' => hfresh d' (List.mem_cons_of_mem _ hd')) hnd'
                rcases hf : rest.find? (qualifies tm0 mId) with _ | d0 <;> rw [hf] at hres
                · intro p' hp'
                  refine hres p' fun hmem => hp' ?_
                  rw [paramsOf_cons_some hp]; simp [hmem]
                · obtain ⟨p0, r0, h1, h2, h3, h4⟩ := hres
                  refine ⟨p0, r0, h1, h2, ?_, ?_⟩
                  · intro d' hd' hq' p' hp'
                    rcases List.mem_cons.mp hd' with rfl | hd'
                    · rw [hq'] at hq; cases hq
                    · exact h3 d' hd' hq' p' hp'
                  · intro p' hp'
                    refine h4 p' fun hmem => hp' ?_
                    rw [paramsOf_cons_some hp]; simp [hmem]
              · have hstep : unifyStep (mbm, tm) d = (mbm, aset tm p c) := by
                  simp [unifyStep, hb, hp, ha]
                rw [hstep]
                have hfresh' : ∀ d' ∈ rest, d'.methodId = mId → ∀ p', d'.param0 = some p' →
                    alookup (aset tm p c) p' = alookup tm0 p' := by
                  intro d' hd' hdm2 p' hp'
                  have hne : p ≠ p' := by
                    intro he
                    exact hpnotin (he ▸ List.mem_filterMap.mpr ⟨d', hd', hp'⟩)
                  rw [alookup_aset, if_neg hne]
                  exact hfresh d' (List.mem_cons_of_mem _ hd') hdm2 p' hp'
                have hres := ih mbm (aset tm p c) hm hfresh' hnd'
                rcases hf : rest.find? (qualifies tm0 mId) with _ | d0 <;> rw [hf] at hres
                · intro p' hp'
                  have hne : p ≠ p' := by
                    intro he
                    subst he
                    exact hp' (by rw [paramsOf_cons_some hp]; simp)
                  have hrest : p' ∉ paramsOf rest := fun hmem =>
                    hp' (by rw [paramsOf_cons_some hp]; simp [hmem])
                  rw [hres p' hrest, alookup_aset, if_neg hne]
                · obtain ⟨p0, r0, h1, h2, h3, h4⟩ := hres
                  refine ⟨p0, r0, h1, h2, ?_, ?_⟩
                  · intro d' hd' hq' p' hp'
                    rcases List.mem_cons.mp hd' with rfl | hd'
                    · rw [hq'] at hq; cases hq
                    · exact h3 d' hd' hq' p' hp'
                  · intro p' hp'
                    have hne : p ≠ p' := by
                      intro he
                      subst he
                      exact hp' (by rw [paramsOf_cons_some hp]; simp)
                    have hrest : p' ∉ paramsOf rest := fun hmem =>
                      hp' (by rw [paramsOf_cons_some hp]; simp [hmem])
                    rw [h4 p' hrest, alookup_aset, if_neg hne]
      · -- head qualifies: it seeds the canonical record with its own one
        rw [List.find?_cons_of_pos _ hq]
        have hq2 := hq
        simp only [qualifies, Bool.and_eq_true, beq_iff_eq] at hq2
        have hdm : d.methodId = mId := hq2.1
        rcases hp : d.param0 with _ | p
        · exfalso
          rw [hp] at hq2
          simp at hq2
        · rw [hp] at hq2
          simp only [Option.isSome_iff_exists] at hq2
          obtain ⟨r0, hr0⟩ := hq2.2
          have hnodup := hnd
          rw [paramsOf_cons_some hp] at hnodup
          have hpnotin : p ∉ paramsOf rest := (List.nodup_cons.mp hnodup).1
          have hnd' : (paramsOf rest).Nodup := (List.nodup_cons.mp hnodup).2
          have hatm : alookup tm p = some r0 := by
            rw [hfresh d (by simp) hdm p hp]; exact hr0
          have hbm : blookup mbm d.methodId = some none := by rw [hdm]; exact hm
          have hstep : unifyStep (mbm, tm) d = (bset mbm d.methodId (some r0), tm) := by
            simp [unifyStep, hbm, hp, hatm]
          rw [hstep]
          have hm2 : blookup (bset mbm d.methodId (some r0)) mId = some (some r0) := by
            rw [blookup_bset, if_pos hdm]
          obtain ⟨ha1, ha2, ha3⟩ := unify_fold_seeded tm0 mId r0 rest
            (bset mbm d.methodId (some r0)) tm hm2
            (fun d' hd' => hfresh d' (List.mem_cons_of_mem _ hd')) hnd'
          refine ⟨p, r0, hp, hr0, ?_, ?_⟩
          · intro d' hd' hq' p' hp'
            rcases List.mem_cons.mp hd' with rfl | hd'
            · have hpp : p' = p := by
                rw [hp] at hp'
                injection hp' with h
                exact h.symm
              subst hpp
              rw [ha3 p' hpnotin]
              exact hatm
            · exact ha2 d' hd' hq' p' hp'
          · intro p' hp'
            refine ha3 p' fun hmem => hp' ?_
            rw [paramsOf_cons_some hp]; simp [hmem]


theorem blookup_init_of_mem {ms : List Nat} {m : Nat} (h : m ∈ ms) :
    blookup (initMbm ms) m = some none := by
  induction ms with
  | nil => cases h
  | cons a rest ih =>
      rcases List.mem_cons.mp h with rfl | h2
      · simp [initMbm, blookup]
      · simp only [initMbm, List.map_cons, blookup]
        split
        · rfl
        · exact ih h2

theorem blookup_init_isSome {ms : List Nat} {k : Nat}
    (h : (blookup (initMbm ms) k).isSome = true) : k ∈ ms := by
  induction ms with
  | nil => cases h
  | cons a rest ih =>
      simp only [initMbm, List.map_cons, blookup] at h
      by_cases hk : a = k
      · simp [hk]
      · rw [if_neg hk] at h
        exact List.mem_cons_of_mem _ (ih h)

/-- Frame lemma for one interface's fold: a parameter that belongs to
no declaration whose method is a method of the interface is never
written. -/
theorem unify_fold_frame (ms' : List Nat) (elig : List RecvDef) :
    ∀ (mbm : MBM) (tm : TMap) (p : Nat),
      (∀ k, (blookup mbm k).isSome = true → k ∈ ms') →
      (∀ d ∈ elig, d.param0 = some p → d.methodId ∉ ms') →
      alookup (elig.foldl unifyStep (mbm, tm)).2 p = alookup tm p := by
  induction elig with
  | nil => intro mbm tm p _ _; rfl
  | cons d rest ih =>
      intro mbm tm p hkeys hforeign
      simp only [List.foldl_cons]
      have hforeign' : ∀ d' ∈ rest, d'.param0 = some p → d'.methodId ∉ ms' :=
        fun d' hd' => hforeign d' (List.mem_cons_of_mem _ hd')
      rcases hb : blookup mbm d.methodId with _ | canon
      · rw [show unifyStep (mbm, tm) d = (mbm, tm) by simp [unifyStep, hb]]
        exact ih mbm tm p hkeys hforeign'
      · have hdmem : d.methodId ∈ ms' := hkeys _ (by simp [hb])
        rcases hp : d.param0 with _ | q
        · rw [show unifyStep (mbm, tm) d = (mbm, tm) by simp [unifyStep, hb, hp]]
          exact ih mbm tm p hkeys hforeign'
        · rcases ha : alookup tm q with _ | r'
          · rw [show unifyStep (mbm, tm) d = (mbm, tm) by simp [unifyStep, hb, hp, ha]]
            exact ih mbm tm p hkeys hforeign'
          · rcases canon with _ | c
            · rw [show unifyStep (mbm, tm) d = (bset mbm d.methodId (some r'), tm) by
                simp [unifyStep, hb, hp, ha]]
              refine ih _ tm p ?_ hforeign'
              intro k hk
              rw [blookup_bset] at hk
              by_cases hkd : d.methodId = k
              · exact hkd ▸ hdmem
              · rw [if_neg hkd] at hk
                exact hkeys k hk
            · rw [show unifyStep (mbm, tm) d = (mbm, aset tm q c) by
                simp [unifyStep, hb, hp, ha]]
              have hqp : q ≠ p := by
                intro he
                subst he
                exact hforeign d (by simp) hp hdmem
              rw [ih mbm (aset tm q c) p hkeys hforeign', alookup_aset, if_neg hqp]

theorem mem_eligibleDefs {ms : List Nat} {recvs : List Recv} {d : RecvDef}
    (h : d ∈ eligibleDefs ms recvs) : d ∈ recvs.flatMap fun r => r.defs := by
  rw [eligibleDefs, List.mem_flatMap] at h
  obtain ⟨r, hr, hd⟩ := h
  exact List.mem_flatMap.mpr ⟨r, List.mem_of_mem_filter hr, hd⟩

theorem sublist_flatMap {α β : Type} {l1 l2 : List α} (f : α → List β)
    (h : l1.Sublist l2) : (l1.flatMap f).Sublist (l2.flatMap f) := by
  induction h with
  | slnil => simp
  | cons a h ih =>
      rw [List.flatMap_cons]
      exact ih.trans (List.sublist_append_right _ _)
  | cons₂ a h ih =>
      rw [List.flatMap_cons, List.flatMap_cons]
      exact ih.append_left _

theorem paramsOf_eligibleDefs_nodup {ms : List Nat} {recvs : List Recv}
    (hnd : (paramsOf (recvs.flatMap fun r => r.defs)).Nodup) :
    (paramsOf (eligibleDefs ms recvs)).Nodup := by
  refine hnd.sublist ?_
  refine List.Sublist.filterMap _ ?_
  exact sublist_flatMap _ (List.filter_sublist recvs)

/-- With pairwise-distinct first parameters, a parameter determines
its declaration. -/
theorem paramsOf_nodup_unique {l : List RecvDef} (hnd : (paramsOf l).Nodup)
    {d1 d2 : RecvDef} (h1 : d1 ∈ l) (h2 : d2 ∈ l) {p : Nat}
    (hp1 : d1.param0 = some p) (hp2 : d2.param0 = some p) : d1 = d2 := by
  induction l with
  | nil => cases h1
  | cons a rest ih =>
      have hnd' : (paramsOf rest).Nodup := by
        rcases hp : a.param0 with _ | q
        · rwa [paramsOf_cons_none hp] at hnd
        · rw [paramsOf_cons_some hp] at hnd; exact hnd.of_cons
      rcases List.mem_cons.mp h1 with rfl | h1' <;> rcases List.mem_cons.mp h2 with rfl | h2'
      · rfl
      · exfalso
        rw [paramsOf_cons_some hp1] at hnd
        exact (List.nodup_cons.mp hnd).1 (List.mem_filterMap.mpr ⟨d2, h2', hp2⟩)
      · exfalso
        rw [paramsOf_cons_some hp2] at hnd
        exact (List.nodup_cons.mp hnd).1 (List.mem_filterMap.mpr ⟨d1, h1', hp1⟩)
      · exact ih hnd' h1' h2'

/-- Frame lemma for whole interfaces: an interface none of whose
methods belongs to any declaration owning parameter `p` leaves `p`
untouched. -/
theorem identifyInterfaceMethods_frame (ifs : List (List Nat)) (recvs : List Recv) :
    ∀ (tm : TMap) (p : Nat),
      (∀ ms' ∈ ifs, ∀ d ∈ recvs.flatMap (fun r => r.defs), d.param0 = some p →
        d.methodId ∉ ms') →
      alookup (identifyInterfaceMethods ifs recvs tm) p = alookup tm p := by
  induction ifs with
  | nil => intro tm p _; rfl
  | cons ms' rest ih =>
      intro tm p h
      rw [identifyInterfaceMethods, List.foldl_cons]
      have hstep : alookup (if ms'.isEmpty then tm else processIface ms' recvs tm) p =
          alookup tm p := by
        split
        · rfl
        · rw [processIface]
          refine unify_fold_frame ms' (eligibleDefs ms' recvs) _ tm p
            (fun k hk => blookup_init_isSome hk) ?_
          intro d hd hp
          exact h ms' (by simp) d (mem_eligibleDefs hd) hp
      have := ih (if ms'.isEmpty then tm else processIface ms' recvs tm) p
        (fun ms2 hms2 => h ms2 (List.mem_cons_of_mem _ hms2))
      rw [identifyInterfaceMethods] at this
      rw [this, hstep]


/-- C6 (amended): for an interface whose method identifiers are not
declared by any other named non-empty interface processed in the same
run, and with the (always true in Go) assumption that distinct method
declarations have distinct first-parameter objects, the unifier makes
every qualifying implementation's parameter share the record of the
first qualifying implementation found. -/
theorem unifier_shares_record_of_first_impl
    (pre post : List (List Nat)) (recvs : List Recv) (tm0 : TMap) (ms : List Nat)
    (mId : Nat) (d0 : RecvDef) (hmem : mId ∈ ms)
    (hpre : ∀ ms2, ms2 ∈ pre → mId ∉ ms2)
    (hpost : ∀ ms2, ms2 ∈ post → mId ∉ ms2)
    (hnd : (paramsOf (recvs.flatMap fun r => r.defs)).Nodup)
    (hfind : (eligibleDefs ms recvs).find? (qualifies tm0 mId) = some d0) :
    ∃ p0 r0, d0.param0 = some p0 ∧ alookup tm0 p0 = some r0 ∧
      ∀ d ∈ eligibleDefs ms recvs, qualifies tm0 mId d = true →
        ∀ p, d.param0 = some p →
          alookup (identifyInterfaceMethods (pre ++ ms :: post) recvs tm0) p = some r0 := by
  have hne : ms.isEmpty = false := by
    rcases ms with _ | ⟨a, rest⟩
    · cases hmem
    · rfl
  have hsplit : identifyInterfaceMethods (pre ++ ms :: post) recvs tm0 =
      identifyInterfaceMethods post recvs
        (processIface ms recvs (identifyInterfaceMethods pre recvs tm0)) := by
    rw [identifyInterfaceMethods, identifyInterfaceMethods, identifyInterfaceMethods,
      List.foldl_append, List.foldl_cons]
    simp only [hne, Bool.false_eq_true, if_false]
  have hfreshparams : ∀ d ∈ eligibleDefs ms recvs, d.methodId = mId →
      ∀ p, d.param0 = some p →
        alookup (identifyInterfaceMethods pre recvs tm0) p = alookup tm0 p := by
    intro d hd hdm p hp
    refine identifyInterfaceMethods_frame pre recvs tm0 p ?_
    intro ms2 hms2 d2 hd2 hp2
    have he : d2 = d := paramsOf_nodup_unique hnd hd2 (mem_eligibleDefs hd) hp2 hp
    subst he
    rw [hdm]
    exact hpre ms2 hms2
  have hres := unify_fold_unseeded tm0 mId (eligibleDefs ms recvs) (initMbm ms)
    (identifyInterfaceMethods pre recvs tm0) (blookup_init_of_mem hmem)
    hfreshparams (paramsOf_eligibleDefs_nodup hnd)
  rw [hfind] at hres
  obtain ⟨p0, r0, h1, h2, h3, h4⟩ := hres
  refine ⟨p0, r0, h1, h2, ?_⟩
  intro d hd hq p hp
  have hmid : alookup
      (processIface ms recvs (identifyInterfaceMethods pre recvs tm0)) p = some r0 := by
    rw [processIface]
    exact h3 d hd hq p hp
  have hdm : d.methodId = mId := by
    simp only [qualifies, Bool.and_eq_true, beq_iff_eq] at hq
    exact hq.1
  rw [hsplit]
  have hframe : alookup (identifyInterfaceMethods post recvs
      (processIface ms recvs (identifyInterfaceMethods pre recvs tm0))) p =
      alookup (processIface ms recvs (identifyInterfaceMethods pre recvs tm0)) p := by
    refine identifyInterfaceMethods_frame post recvs _ p ?_
    intro ms2 hms2 d2 hd2 hp2
    have he : d2 = d := paramsOf_nodup_unique hnd hd2 (mem_eligibleDefs hd) hp2 hp
    subst he
    rw [hdm]
    exact hpost ms2 hms2
  rw [hframe, hmid]

/-- C6 counterexample: interface I1 = {1, 2} is implemented (in
pointer form) by receivers T and U, whose method-1 parameters 10 and
20 are both tracked, so the claim requires them to share one record
after the phase.  But when interface I2 = {1, 3} (implemented by V and
U, not T) is processed afterwards and visits V first, U's parameter is
re-pointed at V's record: parameter 10 ends at record 100 and
parameter 20 at record 300 — the sharing for I1's method 1 is broken. -/
theorem unifier_sharing_broken_by_second_interface :
    (⟨1, some 10⟩ : RecvDef) ∈ eligibleDefs [1, 2] recvsCE ∧
    (⟨1, some 20⟩ : RecvDef) ∈ eligibleDefs [1, 2] recvsCE ∧
    qualifies tmCE 1 ⟨1, some 10⟩ = true ∧
    qualifies tmCE 1 ⟨1, some 20⟩ = true ∧
    alookup (identifyInterfaceMethods [[1, 2], [1, 3]] recvsCE tmCE) 10 = some 100 ∧
    alookup (identifyInterfaceMethods [[1, 2], [1, 3]] recvsCE tmCE) 20 = some 300 := by
  decide

/-- C6 amended witness: with interface I1 = {1, 2} processed on its
own, the first qualifying implementation (T's method 1, parameter 10,
record 100) seeds the canonical record and every qualifying
implementation's parameter ends at record 100. -/
theorem unifier_shares_record_of_first_impl_witness :
    ∃ p0 r0, (⟨1, some 10⟩ : RecvDef).param0 = some p0 ∧
      alookup tmCE p0 = some r0 ∧
      ∀ d ∈ eligibleDefs [1, 2] recvsCE, qualifies tmCE 1 d = true →
        ∀ p, d.param0 = some p →
          alookup (identifyInterfaceMethods ([] ++ [1, 2] :: []) recvsCE tmCE) p = some r0 :=
  unifier_shares_record_of_first_impl [] [] recvsCE tmCE [1, 2] 1 ⟨1, some 10⟩
    (by decide) (by simp) (by simp) (by decide) (by decide)

unseal explicitInterfaces interfaceWasRequested methodSet leafInterfaces embedsExplicitlyContaining isContextType in
/-- C8 witness: the tracking conditions read off a concretely tracked
variable. -/
theorem track_iff_conditions_witness :
    (⟨6, "ctx", .iface [] [baseCtx, capE], some 2⟩ : Obj).name ≠ "_" ∧
    isContextType (⟨6, "ctx", .iface [] [baseCtx, capE], some 2⟩ : Obj).typ = true ∧
    leafInterfaces (⟨6, "ctx", .iface [] [baseCtx, capE], some 2⟩ : Obj).typ ≠ [] ∧
    ¬ ∃ t, leafInterfaces (⟨6, "ctx", .iface [] [baseCtx, capE], some 2⟩ : Obj).typ = [t] ∧
      typeIsCtx t = true :=
  (track_iff_conditions ⟨6, "ctx", .iface [] [baseCtx, capE], some 2⟩).mp (by decide)

/-- C9 witness: a concrete type-switch head leaves the map unchanged. -/
theorem typeSwitch_records_no_use_witness :
    markUsesNode [] (.typeAssert (some 1) none) = some [] :=
  (typeSwitch_records_no_use [] (some 1)).1

end TypedContext
